import Mathlib

/-!
Shallow embedding of the single-instrument limit order book engine in
`src/main.cpp` (classes `Order`, `Trade`/`TradeInfo`, `OrderBook` with
`AddOrder`, `CanMatch`, `MatchOrders`), together with theorems checking the
natural-language specification against it.

Modelling conventions:
* `Quantity` (`std::uint32_t`) is modelled as `Nat`; `Fill` guards
  `quantity > remaining` before subtracting, so no wrap-around is reachable
  and the checked variant `Order.fillChecked` mirrors the `throw` branch as
  `Option`.
* `Price` (`std::int32_t`) is modelled as `Int`; only comparisons are done on
  prices.
* `std::map<Price, OrderPointers>` is modelled as an association list of
  `(price, queue)` pairs in the map's iteration order (bids descending, asks
  ascending); `begin()` is the list head, `erase` of the best price drops the
  head entry.
* The registry `orders_` is modelled by its key set, a list of order ids
  (`contains` is membership, `insert` conses, `erase` removes the entry).
* The two `while` loops of `MatchOrders` are modelled with explicit fuel
  (`matchLevelGo`, `matchOuterGo`); the wrappers `matchLevel` and `matchOuter`
  supply fuel that provably suffices (claim C9), so out-of-fuel answers are
  unreachable from the wrappers.
-/

namespace OrderBookModel

/-- `OrderType` from the source: lifetime behavior of an order. -/
inductive OrderType where
  | GoodTillCancel
  | FillAndKill
deriving DecidableEq

/-- `Side` from the source: buy (bid) or sell (ask). -/
inductive Side where
  | Buy
  | Sell
deriving DecidableEq

/-- The `Order` entity: metadata plus original and remaining quantity. -/
structure Order where
  orderType : OrderType
  orderID : Nat
  side : Side
  price : Int
  initialQuantity : Nat
  remainingQuantity : Nat
deriving DecidableEq

/-- The `Order` constructor: `remainingQuantity` starts equal to the given
quantity. -/
def Order.make (t : OrderType) (id : Nat) (s : Side) (q : Nat) (p : Int) : Order :=
  { orderType := t, orderID := id, side := s, price := p,
    initialQuantity := q, remainingQuantity := q }

/-- `Order::Fill` on the success path: reduce the remaining quantity. -/
def Order.fill (o : Order) (q : Nat) : Order :=
  { o with remainingQuantity := o.remainingQuantity - q }

/-- `Order::Fill` with its guard: the source throws `std::logic_error` when
`quantity > getRemainingQuantity()`; the failure is modelled as `none`. -/
def Order.fillChecked (o : Order) (q : Nat) : Option Order :=
  if q > o.remainingQuantity then none
  else some { o with remainingQuantity := o.remainingQuantity - q }

/-- `Order::isFilled`. -/
def Order.isFilled (o : Order) : Bool := o.remainingQuantity = 0

/-- `TradeInfo`: one leg of an execution. -/
structure TradeInfo where
  orderid : Nat
  price : Int
  quantity : Nat
deriving DecidableEq

/-- `Trade`: a completed two-legged execution. -/
structure Trade where
  bidTrade : TradeInfo
  askTrade : TradeInfo
deriving DecidableEq

/-- One price level: the key and its FIFO queue of resting orders. -/
abbrev Level := Int × List Order

/-- The `OrderBook` state: bid map (descending iteration order), ask map
(ascending iteration order), and the id set of the registry `orders_`. -/
structure Book where
  bids : List Level
  asks : List Level
  orders : List Nat
deriving DecidableEq

/-- `bids_[price].push_back(order)` for the bid map: locate (or create, at the
position std::map gives a new key in descending order) the level of
`o.price` and append `o` at the tail of its queue. -/
def insertBid (o : Order) : List Level → List Level
  | [] => [(o.price, [o])]
  | (p, q) :: rest =>
    if o.price = p then (p, q ++ [o]) :: rest
    else if p < o.price then (o.price, [o]) :: (p, q) :: rest
    else (p, q) :: insertBid o rest

/-- `asks_[price].push_back(order)` for the ask map (ascending key order). -/
def insertAsk (o : Order) : List Level → List Level
  | [] => [(o.price, [o])]
  | (p, q) :: rest =>
    if o.price = p then (p, q ++ [o]) :: rest
    else if o.price < p then (o.price, [o]) :: (p, q) :: rest
    else (p, q) :: insertAsk o rest

/-- `OrderBook::CanMatch`: a buy can match iff the ask side is non-empty and
the best (lowest) ask price is at most the buy price; symmetrically for a
sell against the best (highest) bid. -/
def canMatch (b : Book) (s : Side) (price : Int) : Bool :=
  match s with
  | Side.Buy =>
    match b.asks with
    | [] => false
    | (bestAsk, _) :: _ => decide (bestAsk ≤ price)
  | Side.Sell =>
    match b.bids with
    | [] => false
    | (bestBid, _) :: _ => decide (price ≤ bestBid)

/-- The insertion part of `OrderBook::AddOrder`: append the order to the FIFO
queue at its price on its side and register its id in `orders_`. -/
def insertOrder (b : Book) (o : Order) : Book :=
  match o.side with
  | Side.Buy =>
    { b with bids := insertBid o b.bids, orders := o.orderID :: b.orders }
  | Side.Sell =>
    { b with asks := insertAsk o b.asks, orders := o.orderID :: b.orders }

/-- The inner `while (!bids.empty() && !asks.empty())` loop of
`OrderBook::MatchOrders`, on the queues of the current best bid and best ask
levels, with explicit fuel.  Each iteration fills both head orders by
`min` of their remaining quantities, pops whichever head is now fully filled
(erasing its id from the registry), and records the trade with each leg
carrying that leg's own order id and limit price.  Out of fuel, the current
state is returned unchanged (unreachable from `matchLevel`). -/
def matchLevelGo : Nat → List Order → List Order → List Nat →
    List Trade × List Order × List Order × List Nat
  | 0, bq, aq, reg => ([], bq, aq, reg)
  | _ + 1, [], aq, reg => ([], [], aq, reg)
  | _ + 1, bq, [], reg => ([], bq, [], reg)
  | n + 1, b :: bs, a :: as', reg =>
    let q := min b.remainingQuantity a.remainingQuantity
    let t : Trade := ⟨⟨b.orderID, b.price, q⟩, ⟨a.orderID, a.price, q⟩⟩
    if b.remainingQuantity - q = 0 then
      if a.remainingQuantity - q = 0 then
        let r := matchLevelGo n bs as' ((reg.erase b.orderID).erase a.orderID)
        (t :: r.1, r.2)
      else
        let r := matchLevelGo n bs (a.fill q :: as') (reg.erase b.orderID)
        (t :: r.1, r.2)
    else
      if a.remainingQuantity - q = 0 then
        let r := matchLevelGo n (b.fill q :: bs) as' (reg.erase a.orderID)
        (t :: r.1, r.2)
      else
        let r := matchLevelGo n (b.fill q :: bs) (a.fill q :: as') reg
        (t :: r.1, r.2)

/-- The inner matching loop with enough fuel: every iteration pops at least
one order, so `bq.length + aq.length` iterations always suffice. -/
def matchLevel (bq aq : List Order) (reg : List Nat) :
    List Trade × List Order × List Order × List Nat :=
  matchLevelGo (bq.length + aq.length) bq aq reg

/-- The outer `while (true)` loop of `OrderBook::MatchOrders` with explicit
fuel: stop when a side is empty or the best bid price is below the best ask
price; otherwise run the inner loop on the two best levels and erase a level
whose queue has emptied. -/
def matchOuterGo : Nat → List Level → List Level → List Nat →
    List Trade × List Level × List Level × List Nat
  | 0, bids, asks, reg => ([], bids, asks, reg)
  | _ + 1, [], asks, reg => ([], [], asks, reg)
  | _ + 1, bids, [], reg => ([], bids, [], reg)
  | n + 1, (bp, bq) :: brest, (ap, aq) :: arest, reg =>
    if bp < ap then ([], (bp, bq) :: brest, (ap, aq) :: arest, reg)
    else
      let r := matchLevel bq aq reg
      let bids' := if r.2.1 = [] then brest else (bp, r.2.1) :: brest
      let asks' := if r.2.2.1 = [] then arest else (ap, r.2.2.1) :: arest
      let r2 := matchOuterGo n bids' asks' r.2.2.2
      (r.1 ++ r2.1, r2.2)

/-- The outer matching loop with enough fuel: every crossing iteration erases
at least one price level, so `bids.length + asks.length` iterations always
suffice. -/
def matchOuter (bids asks : List Level) (reg : List Nat) :
    List Trade × List Level × List Level × List Nat :=
  matchOuterGo (bids.length + asks.length) bids asks reg

/-- Modelled from the spec: `OrderBook::CancelOrder` is called by
`MatchOrders` (lines 396 and 403) but its definition is not part of the
provided source file.  Spec §4.2: cancellation removes the order's entry from
its price-level queue and from the registry; if the queue becomes empty the
price level itself is removed; it is a no-op when the identity is absent.
This helper removes every order carrying the identity from a side and drops
levels whose queue became empty. -/
def removeFromLevels (id : Nat) (ls : List Level) : List Level :=
  (ls.map (fun l => (l.1, l.2.filter (fun o => o.orderID ≠ id)))).filter
    (fun l => ¬ l.2.isEmpty)

/-- Modelled from the spec: `OrderBook::CancelOrder` (see
`removeFromLevels`). -/
def cancelOrder (b : Book) (id : Nat) : Book :=
  { bids := removeFromLevels id b.bids,
    asks := removeFromLevels id b.asks,
    orders := b.orders.erase id }

/-- The tail of `OrderBook::MatchOrders`: after the loop, if the head order of
the best remaining bid level is fill-and-kill, cancel it; then the same,
independently, for the best remaining ask level. -/
def fakCleanup (b : Book) : Book :=
  let b1 :=
    match b.bids with
    | (_, o :: _) :: _ =>
      if o.orderType = OrderType.FillAndKill then cancelOrder b o.orderID else b
    | _ => b
  match b1.asks with
  | (_, o :: _) :: _ =>
    if o.orderType = OrderType.FillAndKill then cancelOrder b1 o.orderID else b1
  | _ => b1

/-- `OrderBook::MatchOrders`: run the crossing loop, then the fill-and-kill
cleanup, returning the trades and the new book state. -/
def matchOrders (b : Book) : List Trade × Book :=
  let r := matchOuter b.bids b.asks b.orders
  (r.1, fakCleanup ⟨r.2.1, r.2.2.1, r.2.2.2⟩)

/-- `OrderBook::AddOrder`: reject duplicate ids, reject a fill-and-kill order
that cannot immediately match, otherwise insert the order and run the
matching engine. -/
def addOrder (b : Book) (o : Order) : List Trade × Book :=
  if o.orderID ∈ b.orders then ([], b)
  else if o.orderType = OrderType.FillAndKill ∧ ¬ canMatch b o.side o.price then
    ([], b)
  else matchOrders (insertOrder b o)

/-- The inner matching loop built on the guarded `Order.fillChecked`:
`none` whenever a fill of more than the remaining quantity would be
attempted (the `std::logic_error` branch of `Order::Fill`). -/
def matchLevelCheckedGo : Nat → List Order → List Order → List Nat →
    Option (List Trade × List Order × List Order × List Nat)
  | 0, bq, aq, reg => some ([], bq, aq, reg)
  | _ + 1, [], aq, reg => some ([], [], aq, reg)
  | _ + 1, bq, [], reg => some ([], bq, [], reg)
  | n + 1, b :: bs, a :: as', reg =>
    let q := min b.remainingQuantity a.remainingQuantity
    match b.fillChecked q, a.fillChecked q with
    | some b', some a' =>
      let t : Trade := ⟨⟨b.orderID, b.price, q⟩, ⟨a.orderID, a.price, q⟩⟩
      let step :=
        if b'.remainingQuantity = 0 then
          if a'.remainingQuantity = 0 then
            matchLevelCheckedGo n bs as' ((reg.erase b.orderID).erase a.orderID)
          else
            matchLevelCheckedGo n bs (a' :: as') (reg.erase b.orderID)
        else
          if a'.remainingQuantity = 0 then
            matchLevelCheckedGo n (b' :: bs) as' (reg.erase a.orderID)
          else
            matchLevelCheckedGo n (b' :: bs) (a' :: as') reg
      step.map (fun r => (t :: r.1, r.2))
    | _, _ => none

/-- The checked inner loop with the fuel used by `matchLevel`. -/
def matchLevelChecked (bq aq : List Order) (reg : List Nat) :
    Option (List Trade × List Order × List Order × List Nat) :=
  matchLevelCheckedGo (bq.length + aq.length) bq aq reg

/-- `AddOrder` where the matching loop runs on explicit fuel `n` instead of
the bound computed by `matchOuter`; used to state termination (claim C9). -/
def addOrderGo (n : Nat) (b : Book) (o : Order) : List Trade × Book :=
  if o.orderID ∈ b.orders then ([], b)
  else if o.orderType = OrderType.FillAndKill ∧ ¬ canMatch b o.side o.price then
    ([], b)
  else
    let b' := insertOrder b o
    let r := matchOuterGo n b'.bids b'.asks b'.orders
    (r.1, fakCleanup ⟨r.2.1, r.2.2.1, r.2.2.2⟩)

/-- No fill-and-kill order rests in any queue of a side. -/
def noFakLevels (ls : List Level) : Prop :=
  ∀ l ∈ ls, ∀ o ∈ l.2, o.orderType ≠ OrderType.FillAndKill

/-- No fully filled order (remaining quantity 0) rests in any queue. -/
def noFilledLevels (ls : List Level) : Prop :=
  ∀ l ∈ ls, ∀ o ∈ l.2, o.remainingQuantity ≠ 0

/-- No price level has an empty queue. -/
def noEmptyLevels (ls : List Level) : Prop :=
  ∀ l ∈ ls, l.2 ≠ []

/-- No order in any queue of the side carries the given identity. -/
def idFreeLevels (id : Nat) (ls : List Level) : Prop :=
  ∀ l ∈ ls, ∀ o ∈ l.2, o.orderID ≠ id

/-- The bid map iterates in strictly descending price order. -/
def sortedBids (ls : List Level) : Prop :=
  (ls.map Prod.fst).Pairwise (fun x y => y < x)

/-- The ask map iterates in strictly ascending price order. -/
def sortedAsks (ls : List Level) : Prop :=
  (ls.map Prod.fst).Pairwise (fun x y => x < y)

/-- The book is not crossed at the top: both sides non-empty implies the best
bid price is strictly below the best ask price. -/
def notCrossed (b : Book) : Bool :=
  match b.bids, b.asks with
  | (bp, _) :: _, (ap, _) :: _ => decide (bp < ap)
  | _, _ => true

/-- The queue of the level with the given price (first match), `[]` if the
price level is absent. -/
def levelQueue (p : Int) : List Level → List Order
  | [] => []
  | (q, os) :: rest => if q = p then os else levelQueue p rest

/-- `out` is what is left of the FIFO queue `inp` after matching consumed it
from the front: either nothing is left, or `out` is a suffix of `inp` whose
head may have had its remaining quantity reduced in place (identity, price,
type and position untouched). -/
def consumedFrom (out inp : List Order) : Prop :=
  out = [] ∨ ∃ y ys x, out = y :: ys ∧ (x :: ys) <:+ inp ∧
    y.orderID = x.orderID ∧ y.price = x.price ∧ y.orderType = x.orderType ∧
    y.side = x.side ∧ y.remainingQuantity ≤ x.remainingQuantity

/-- The order rests in one of the side's queues. -/
def restingInLevels (o : Order) (ls : List Level) : Prop :=
  ∃ l ∈ ls, o ∈ l.2

end OrderBookModel

namespace OrderBookModel

lemma consumedFrom_refl (inp : List Order) : consumedFrom inp inp := by
  cases inp with
  | nil => exact Or.inl rfl
  | cons x xs =>
    exact Or.inr ⟨x, xs, x, rfl, List.suffix_refl _, rfl, rfl, rfl, rfl, le_refl _⟩

lemma consumedFrom_cons (x : Order) (out l : List Order)
    (h : consumedFrom out l) : consumedFrom out (x :: l) := by
  rcases h with h | ⟨y, ys, z, rfl, hsuf, h1, h2, h3, h4, h5⟩
  · exact Or.inl h
  · exact Or.inr ⟨y, ys, z, rfl, hsuf.trans (List.suffix_cons x l),
      h1, h2, h3, h4, h5⟩

lemma fill_orderID (x : Order) (q : Nat) : (x.fill q).orderID = x.orderID := rfl

lemma fill_remaining (x : Order) (q : Nat) :
    (x.fill q).remainingQuantity = x.remainingQuantity - q := rfl

lemma consumedFrom_fill_cons (x : Order) (q : Nat) (out l : List Order)
    (h : consumedFrom out (x.fill q :: l)) : consumedFrom out (x :: l) := by
  rcases h with h | ⟨y, ys, z, rfl, hsuf, h1, h2, h3, h4, h5⟩
  · exact Or.inl h
  · rcases List.suffix_cons_iff.mp hsuf with heq | hsuf'
    · have hz : z = x.fill q := by injection heq
      have hys : ys = l := by injection heq
      refine Or.inr ⟨y, ys, x, rfl, ?_, ?_, ?_, ?_, ?_, ?_⟩
      · rw [hys]
      · rw [h1, hz]; rfl
      · rw [h2, hz]; rfl
      · rw [h3, hz]; rfl
      · rw [h4, hz]; rfl
      · rw [hz] at h5
        exact h5.trans (Nat.sub_le _ _)
    · exact Or.inr ⟨y, ys, z, rfl, hsuf'.trans (List.suffix_cons x l),
        h1, h2, h3, h4, h5⟩

lemma consumedFrom_fields (out inp : List Order) (h : consumedFrom out inp) :
    ∀ o ∈ out, ∃ x ∈ inp, o.orderID = x.orderID ∧ o.orderType = x.orderType := by
  rcases h with rfl | ⟨y, ys, z, rfl, hsuf, h1, h2, h3, h4, h5⟩
  · intro o ho; cases ho
  · intro o ho
    rcases List.mem_cons.mp ho with rfl | ho'
    · exact ⟨z, hsuf.subset (List.mem_cons_self _ _), h1, h3⟩
    · exact ⟨o, hsuf.subset (List.mem_cons_of_mem _ ho'), rfl, rfl⟩

lemma matchLevelGo_nil_bid (k : Nat) (aq : List Order) (reg : List Nat) :
    matchLevelGo k [] aq reg = ([], [], aq, reg) := by
  cases k <;> simp [matchLevelGo]

lemma matchLevelGo_nil_ask (k : Nat) (bq : List Order) (reg : List Nat) :
    matchLevelGo k bq [] reg = ([], bq, [], reg) := by
  cases k with
  | zero => simp [matchLevelGo]
  | succ k => cases bq <;> simp [matchLevelGo]

lemma matchLevelGo_empty_side (n : Nat) :
    ∀ bq aq reg, bq.length + aq.length ≤ n →
    (matchLevelGo n bq aq reg).2.1 = [] ∨ (matchLevelGo n bq aq reg).2.2.1 = [] := by
  induction n with
  | zero =>
    intro bq aq reg h
    have hbq : bq = [] := by
      cases bq with
      | nil => rfl
      | cons x xs => simp at h
    subst hbq
    simp [matchLevelGo_nil_bid]
  | succ n ih =>
    intro bq aq reg h
    rcases bq with _ | ⟨b, bs⟩
    · simp [matchLevelGo_nil_bid]
    rcases aq with _ | ⟨a, as'⟩
    · simp [matchLevelGo_nil_ask]
    simp only [matchLevelGo]
    by_cases hb : b.remainingQuantity -
        min b.remainingQuantity a.remainingQuantity = 0 <;>
      by_cases ha : a.remainingQuantity -
        min b.remainingQuantity a.remainingQuantity = 0
    · simp only [hb, ha, if_true]
      have := ih bs as' ((reg.erase b.orderID).erase a.orderID) (by
        simp only [List.length_cons] at h; omega)
      simpa using this
    · simp only [hb, ha, if_true, if_false]
      have := ih bs (a.fill (min b.remainingQuantity a.remainingQuantity) :: as')
        (reg.erase b.orderID) (by simp only [List.length_cons] at h; simp; omega)
      simpa using this
    · simp only [hb, ha, if_true, if_false]
      have := ih (b.fill (min b.remainingQuantity a.remainingQuantity) :: bs) as'
        (reg.erase a.orderID) (by simp only [List.length_cons] at h; simp; omega)
      simpa using this
    · exfalso; omega

lemma matchLevel_empty_side (bq aq : List Order) (reg : List Nat) :
    (matchLevel bq aq reg).2.1 = [] ∨ (matchLevel bq aq reg).2.2.1 = [] :=
  matchLevelGo_empty_side _ bq aq reg (le_refl _)

lemma matchLevelGo_reg_sublist (n : Nat) :
    ∀ bq aq reg, ((matchLevelGo n bq aq reg).2.2.2).Sublist reg := by
  induction n with
  | zero => intro bq aq reg; simp [matchLevelGo]
  | succ n ih =>
    intro bq aq reg
    rcases bq with _ | ⟨b, bs⟩
    · simp [matchLevelGo_nil_bid]
    rcases aq with _ | ⟨a, as'⟩
    · simp [matchLevelGo_nil_ask]
    simp only [matchLevelGo]
    by_cases hb : b.remainingQuantity -
        min b.remainingQuantity a.remainingQuantity = 0 <;>
      by_cases ha : a.remainingQuantity -
        min b.remainingQuantity a.remainingQuantity = 0 <;>
      simp only [hb, ha, if_true, if_false]
    · exact (ih _ _ _).trans ((((reg.erase b.orderID).erase_sublist _)).trans
        (reg.erase_sublist _))
    · exact (ih _ _ _).trans (reg.erase_sublist _)
    · exact (ih _ _ _).trans (reg.erase_sublist _)
    · exact ih _ _ _

lemma matchLevelGo_consumed_bid (n : Nat) :
    ∀ bq aq reg, consumedFrom (matchLevelGo n bq aq reg).2.1 bq := by
  induction n with
  | zero => intro bq aq reg; simpa [matchLevelGo] using consumedFrom_refl bq
  | succ n ih =>
    intro bq aq reg
    rcases bq with _ | ⟨b, bs⟩
    · simp [matchLevelGo_nil_bid]
      exact Or.inl rfl
    rcases aq with _ | ⟨a, as'⟩
    · simpa [matchLevelGo_nil_ask] using consumedFrom_refl (b :: bs)
    simp only [matchLevelGo]
    by_cases hb : b.remainingQuantity -
        min b.remainingQuantity a.remainingQuantity = 0 <;>
      by_cases ha : a.remainingQuantity -
        min b.remainingQuantity a.remainingQuantity = 0 <;>
      simp only [hb, ha, if_true, if_false]
    · exact consumedFrom_cons b _ _ (ih _ _ _)
    · exact consumedFrom_cons b _ _ (ih _ _ _)
    · exact consumedFrom_fill_cons b _ _ _ (ih _ _ _)
    · exact consumedFrom_fill_cons b _ _ _ (ih _ _ _)

lemma matchLevelGo_consumed_ask (n : Nat) :
    ∀ bq aq reg, consumedFrom (matchLevelGo n bq aq reg).2.2.1 aq := by
  induction n with
  | zero => intro bq aq reg; simpa [matchLevelGo] using consumedFrom_refl aq
  | succ n ih =>
    intro bq aq reg
    rcases bq with _ | ⟨b, bs⟩
    · simpa [matchLevelGo_nil_bid] using consumedFrom_refl aq
    rcases aq with _ | ⟨a, as'⟩
    · simp [matchLevelGo_nil_ask]
      exact Or.inl rfl
    simp only [matchLevelGo]
    by_cases hb : b.remainingQuantity -
        min b.remainingQuantity a.remainingQuantity = 0 <;>
      by_cases ha : a.remainingQuantity -
        min b.remainingQuantity a.remainingQuantity = 0 <;>
      simp only [hb, ha, if_true, if_false]
    · exact consumedFrom_cons a _ _ (ih _ _ _)
    · exact consumedFrom_fill_cons a _ _ _ (ih _ _ _)
    · exact consumedFrom_cons a _ _ (ih _ _ _)
    · exact consumedFrom_fill_cons a _ _ _ (ih _ _ _)

lemma matchLevelGo_noFilled_bid (n : Nat) :
    ∀ bq aq reg, (∀ o ∈ bq, o.remainingQuantity ≠ 0) →
    ∀ o ∈ (matchLevelGo n bq aq reg).2.1, o.remainingQuantity ≠ 0 := by
  induction n with
  | zero => intro bq aq reg h; simpa [matchLevelGo] using h
  | succ n ih =>
    intro bq aq reg h
    rcases bq with _ | ⟨b, bs⟩
    · simp [matchLevelGo_nil_bid]
    rcases aq with _ | ⟨a, as'⟩
    · simpa [matchLevelGo_nil_ask] using h
    simp only [matchLevelGo]
    by_cases hb : b.remainingQuantity -
        min b.remainingQuantity a.remainingQuantity = 0 <;>
      by_cases ha : a.remainingQuantity -
        min b.remainingQuantity a.remainingQuantity = 0 <;>
      simp only [hb, ha, if_true, if_false]
    · exact ih _ _ _ (fun o ho => h o (List.mem_cons_of_mem _ ho))
    · exact ih _ _ _ (fun o ho => h o (List.mem_cons_of_mem _ ho))
    · refine ih _ _ _ ?_
      intro o ho
      rcases List.mem_cons.mp ho with rfl | ho'
      · simpa [Order.fill] using hb
      · exact h o (List.mem_cons_of_mem _ ho')
    · refine ih _ _ _ ?_
      intro o ho
      rcases List.mem_cons.mp ho with rfl | ho'
      · simpa [Order.fill] using hb
      · exact h o (List.mem_cons_of_mem _ ho')

lemma matchLevelGo_noFilled_ask (n : Nat) :
    ∀ bq aq reg, (∀ o ∈ aq, o.remainingQuantity ≠ 0) →
    ∀ o ∈ (matchLevelGo n bq aq reg).2.2.1, o.remainingQuantity ≠ 0 := by
  induction n with
  | zero => intro bq aq reg h; simpa [matchLevelGo] using h
  | succ n ih =>
    intro bq aq reg h
    rcases bq with _ | ⟨b, bs⟩
    · simpa [matchLevelGo_nil_bid] using h
    rcases aq with _ | ⟨a, as'⟩
    · simp [matchLevelGo_nil_ask]
    simp only [matchLevelGo]
    by_cases hb : b.remainingQuantity -
        min b.remainingQuantity a.remainingQuantity = 0 <;>
      by_cases ha : a.remainingQuantity -
        min b.remainingQuantity a.remainingQuantity = 0 <;>
      simp only [hb, ha, if_true, if_false]
    · exact ih _ _ _ (fun o ho => h o (List.mem_cons_of_mem _ ho))
    · refine ih _ _ _ ?_
      intro o ho
      rcases List.mem_cons.mp ho with rfl | ho'
      · simpa [Order.fill] using ha
      · exact h o (List.mem_cons_of_mem _ ho')
    · exact ih _ _ _ (fun o ho => h o (List.mem_cons_of_mem _ ho))
    · refine ih _ _ _ ?_
      intro o ho
      rcases List.mem_cons.mp ho with rfl | ho'
      · simpa [Order.fill] using ha
      · exact h o (List.mem_cons_of_mem _ ho')

lemma matchLevelGo_stable (n : Nat) :
    ∀ m bq aq reg, bq.length + aq.length ≤ n → bq.length + aq.length ≤ m →
    matchLevelGo n bq aq reg = matchLevelGo m bq aq reg := by
  induction n with
  | zero =>
    intro m bq aq reg h _
    have hbq : bq = [] := by
      cases bq with
      | nil => rfl
      | cons x xs => simp at h
    have haq : aq = [] := by
      cases aq with
      | nil => rfl
      | cons x xs => subst hbq; simp at h
    subst hbq; subst haq
    rw [matchLevelGo_nil_bid, matchLevelGo_nil_bid]
  | succ n ih =>
    intro m bq aq reg h hm
    rcases bq with _ | ⟨b, bs⟩
    · rw [matchLevelGo_nil_bid, matchLevelGo_nil_bid]
    rcases aq with _ | ⟨a, as'⟩
    · rw [matchLevelGo_nil_ask, matchLevelGo_nil_ask]
    rcases m with _ | m
    · simp at hm
    simp only [List.length_cons] at h hm
    simp only [matchLevelGo]
    by_cases hb : b.remainingQuantity -
        min b.remainingQuantity a.remainingQuantity = 0 <;>
      by_cases ha : a.remainingQuantity -
        min b.remainingQuantity a.remainingQuantity = 0 <;>
      simp only [hb, ha, if_true, if_false]
    · rw [ih m bs as' _ (by omega) (by omega)]
    · rw [ih m bs _ _ (by simp; omega) (by simp; omega)]
    · rw [ih m _ as' _ (by simp; omega) (by simp; omega)]
    · exfalso; omega

lemma matchLevelGo_eq_matchLevel (m : Nat) (bq aq : List Order) (reg : List Nat)
    (h : bq.length + aq.length ≤ m) :
    matchLevelGo m bq aq reg = matchLevel bq aq reg :=
  (matchLevelGo_stable m (bq.length + aq.length) bq aq reg h (le_refl _)).symm ▸ rfl

lemma fillChecked_eq_fill (o : Order) (q : Nat) (h : q ≤ o.remainingQuantity) :
    o.fillChecked q = some (o.fill q) := by
  simp only [Order.fillChecked, Order.fill, gt_iff_lt]
  rw [if_neg (Nat.not_lt.mpr h)]

lemma matchLevelCheckedGo_eq (n : Nat) :
    ∀ bq aq reg, matchLevelCheckedGo n bq aq reg = some (matchLevelGo n bq aq reg) := by
  induction n with
  | zero => intro bq aq reg; simp [matchLevelCheckedGo, matchLevelGo]
  | succ n ih =>
    intro bq aq reg
    rcases bq with _ | ⟨b, bs⟩
    · simp [matchLevelCheckedGo, matchLevelGo]
    rcases aq with _ | ⟨a, as'⟩
    · simp [matchLevelCheckedGo, matchLevelGo]
    simp only [matchLevelCheckedGo, matchLevelGo,
      fillChecked_eq_fill b _ (Nat.min_le_left _ _),
      fillChecked_eq_fill a _ (Nat.min_le_right _ _)]
    simp only [Order.fill]
    by_cases hb : b.remainingQuantity -
        min b.remainingQuantity a.remainingQuantity = 0 <;>
      by_cases ha : a.remainingQuantity -
        min b.remainingQuantity a.remainingQuantity = 0 <;>
      simp only [hb, ha, if_true, if_false] <;>
      simp [ih, Order.fill]

lemma matchLevelChecked_eq (bq aq : List Order) (reg : List Nat) :
    matchLevelChecked bq aq reg = some (matchLevel bq aq reg) :=
  matchLevelCheckedGo_eq _ bq aq reg

lemma matchLevel_cons_head_trade (b a : Order) (bs as' : List Order)
    (reg : List Nat) :
    (matchLevel (b :: bs) (a :: as') reg).1.head? = some
      ⟨⟨b.orderID, b.price, min b.remainingQuantity a.remainingQuantity⟩,
       ⟨a.orderID, a.price, min b.remainingQuantity a.remainingQuantity⟩⟩ := by
  show (matchLevelGo ((b :: bs).length + (a :: as').length) _ _ _).1.head? = _
  simp only [List.length_cons]
  have hlen : bs.length + 1 + (as'.length + 1) = (bs.length + 1 + as'.length) + 1 :=
    rfl
  rw [hlen]
  simp only [matchLevelGo]
  split <;> split <;> simp

lemma matchLevel_cons_reg_bid (b a : Order) (bs as' : List Order)
    (reg : List Nat) (hnd : reg.Nodup)
    (hle : b.remainingQuantity ≤ a.remainingQuantity) :
    b.orderID ∉ (matchLevel (b :: bs) (a :: as') reg).2.2.2 := by
  show b.orderID ∉ (matchLevelGo ((b :: bs).length + (a :: as').length) _ _ _).2.2.2
  simp only [List.length_cons]
  have hlen : bs.length + 1 + (as'.length + 1) = (bs.length + 1 + as'.length) + 1 :=
    rfl
  rw [hlen]
  simp only [matchLevelGo]
  have hb : b.remainingQuantity -
      min b.remainingQuantity a.remainingQuantity = 0 := by omega
  simp only [hb, if_true]
  have hnotin : b.orderID ∉ reg.erase b.orderID := hnd.not_mem_erase
  by_cases ha : a.remainingQuantity -
      min b.remainingQuantity a.remainingQuantity = 0 <;>
    simp only [ha, if_true, if_false]
  · intro hmem
    exact (fun hm => hnotin (List.mem_of_mem_erase hm))
      ((matchLevelGo_reg_sublist _ _ _ _).subset hmem)
  · intro hmem
    exact hnotin ((matchLevelGo_reg_sublist _ _ _ _).subset hmem)

lemma matchLevel_cons_reg_ask (b a : Order) (bs as' : List Order)
    (reg : List Nat) (hnd : reg.Nodup)
    (hle : a.remainingQuantity ≤ b.remainingQuantity) :
    a.orderID ∉ (matchLevel (b :: bs) (a :: as') reg).2.2.2 := by
  show a.orderID ∉ (matchLevelGo ((b :: bs).length + (a :: as').length) _ _ _).2.2.2
  simp only [List.length_cons]
  have hlen : bs.length + 1 + (as'.length + 1) = (bs.length + 1 + as'.length) + 1 :=
    rfl
  rw [hlen]
  simp only [matchLevelGo]
  have ha : a.remainingQuantity -
      min b.remainingQuantity a.remainingQuantity = 0 := by omega
  simp only [ha, if_true]
  by_cases hb : b.remainingQuantity -
      min b.remainingQuantity a.remainingQuantity = 0 <;>
    simp only [hb, if_true, if_false]
  · intro hmem
    exact ((hnd.erase b.orderID).not_mem_erase)
      ((matchLevelGo_reg_sublist _ _ _ _).subset hmem)
  · intro hmem
    exact hnd.not_mem_erase ((matchLevelGo_reg_sublist _ _ _ _).subset hmem)

lemma matchLevel_consumed_bid (bq aq : List Order) (reg : List Nat) :
    consumedFrom (matchLevel bq aq reg).2.1 bq :=
  matchLevelGo_consumed_bid _ bq aq reg

lemma matchLevel_consumed_ask (bq aq : List Order) (reg : List Nat) :
    consumedFrom (matchLevel bq aq reg).2.2.1 aq :=
  matchLevelGo_consumed_ask _ bq aq reg

lemma consumedFrom_singleton (out : List Order) (x : Order)
    (h : consumedFrom out [x]) :
    out = [] ∨ ∃ y, out = [y] ∧ y.orderID = x.orderID ∧
      y.orderType = x.orderType := by
  rcases h with h | ⟨y, ys, z, rfl, hsuf, h1, h2, h3, h4, h5⟩
  · exact Or.inl h
  · rcases List.suffix_cons_iff.mp hsuf with heq | hsuf'
    · have hz : z = x := by injection heq
      have hys : ys = [] := by injection heq
      subst hys
      exact Or.inr ⟨y, rfl, hz ▸ h1, hz ▸ h3⟩
    · have : z :: ys = [] := List.suffix_nil.mp hsuf'
      cases this

lemma matchOuterGo_stop (n : Nat) (bids asks : List Level) (reg : List Nat)
    (h : notCrossed ⟨bids, asks, reg⟩ = true) :
    matchOuterGo n bids asks reg = ([], bids, asks, reg) := by
  cases n with
  | zero => simp [matchOuterGo]
  | succ n =>
    rcases bids with _ | ⟨⟨bp, bq⟩, brest⟩
    · simp [matchOuterGo]
    rcases asks with _ | ⟨⟨ap, aq⟩, arest⟩
    · simp [matchOuterGo]
    have hlt : bp < ap := by simpa [notCrossed] using h
    simp [matchOuterGo, hlt]

lemma matchOuterGo_stable (n : Nat) :
    ∀ m bids asks reg, bids.length + asks.length ≤ n →
    bids.length + asks.length ≤ m →
    matchOuterGo n bids asks reg = matchOuterGo m bids asks reg := by
  induction n with
  | zero =>
    intro m bids asks reg h _
    have hb : bids = [] := by
      cases bids with
      | nil => rfl
      | cons x xs => simp at h
    have ha : asks = [] := by
      cases asks with
      | nil => rfl
      | cons x xs => subst hb; simp at h
    subst hb; subst ha
    cases m <;> simp [matchOuterGo]
  | succ n ih =>
    intro m bids asks reg h hm
    rcases bids with _ | ⟨⟨bp, bq⟩, brest⟩
    · cases m <;> simp [matchOuterGo]
    rcases asks with _ | ⟨⟨ap, aq⟩, arest⟩
    · cases m <;> simp [matchOuterGo]
    rcases m with _ | m
    · simp at hm
    simp only [List.length_cons] at h hm
    simp only [matchOuterGo]
    by_cases hlt : bp < ap
    · simp [hlt]
    simp only [hlt, if_false]
    rcases matchLevel_empty_side bq aq reg with h1 | h1
    · simp only [h1, if_true]
      by_cases h2 : (matchLevel bq aq reg).2.2.1 = []
      · simp only [h2, if_true]
        rw [ih m _ _ _ (by omega) (by omega)]
      · simp only [h2, if_false]
        rw [ih m _ _ _ (by simp only [List.length_cons]; omega)
          (by simp only [List.length_cons]; omega)]
    · by_cases h2 : (matchLevel bq aq reg).2.1 = []
      · simp only [h1, h2, if_true]
        rw [ih m _ _ _ (by omega) (by omega)]
      · simp only [h1, h2, if_true, if_false]
        rw [ih m _ _ _ (by simp only [List.length_cons]; omega)
          (by simp only [List.length_cons]; omega)]

lemma matchOuterGo_notCrossed (n : Nat) :
    ∀ bids asks reg, bids.length + asks.length ≤ n →
    notCrossed ⟨(matchOuterGo n bids asks reg).2.1,
      (matchOuterGo n bids asks reg).2.2.1,
      (matchOuterGo n bids asks reg).2.2.2⟩ = true := by
  induction n with
  | zero =>
    intro bids asks reg h
    have hb : bids = [] := by
      cases bids with
      | nil => rfl
      | cons x xs => simp at h
    subst hb
    simp [matchOuterGo, notCrossed]
  | succ n ih =>
    intro bids asks reg h
    rcases bids with _ | ⟨⟨bp, bq⟩, brest⟩
    · simp [matchOuterGo, notCrossed]
    rcases asks with _ | ⟨⟨ap, aq⟩, arest⟩
    · simp [matchOuterGo, notCrossed]
    simp only [List.length_cons] at h
    simp only [matchOuterGo]
    by_cases hlt : bp < ap
    · simp [hlt, notCrossed]
    simp only [hlt, if_false]
    rcases matchLevel_empty_side bq aq reg with h1 | h1
    · simp only [h1, if_true]
      by_cases h2 : (matchLevel bq aq reg).2.2.1 = []
      · simp only [h2, if_true]
        exact ih _ _ _ (by omega)
      · simp only [h2, if_false]
        exact ih _ _ _ (by simp only [List.length_cons]; omega)
    · by_cases h2 : (matchLevel bq aq reg).2.1 = []
      · simp only [h1, h2, if_true]
        exact ih _ _ _ (by omega)
      · simp only [h1, h2, if_true, if_false]
        exact ih _ _ _ (by simp only [List.length_cons]; omega)

lemma matchOuterGo_sorted_bids (n : Nat) :
    ∀ bids asks reg, sortedBids bids →
    sortedBids (matchOuterGo n bids asks reg).2.1 := by
  induction n with
  | zero => intro bids asks reg h; simpa [matchOuterGo] using h
  | succ n ih =>
    intro bids asks reg h
    rcases bids with _ | ⟨⟨bp, bq⟩, brest⟩
    · simpa [matchOuterGo] using h
    rcases asks with _ | ⟨⟨ap, aq⟩, arest⟩
    · simpa [matchOuterGo] using h
    simp only [matchOuterGo]
    by_cases hlt : bp < ap
    · simpa [hlt] using h
    simp only [hlt, if_false]
    have htail : sortedBids brest := by
      simpa [sortedBids] using (List.pairwise_cons.mp h).2
    have hkeep : sortedBids ((bp, (matchLevel bq aq reg).2.1) :: brest) := by
      simpa [sortedBids] using h
    by_cases h1 : (matchLevel bq aq reg).2.1 = [] <;>
      by_cases h2 : (matchLevel bq aq reg).2.2.1 = [] <;>
        simp only [h1, h2, if_true, if_false] <;>
        first
          | exact ih _ _ _ htail
          | exact ih _ _ _ hkeep

lemma matchOuterGo_sorted_asks (n : Nat) :
    ∀ bids asks reg, sortedAsks asks →
    sortedAsks (matchOuterGo n bids asks reg).2.2.1 := by
  induction n with
  | zero => intro bids asks reg h; simpa [matchOuterGo] using h
  | succ n ih =>
    intro bids asks reg h
    rcases bids with _ | ⟨⟨bp, bq⟩, brest⟩
    · simpa [matchOuterGo] using h
    rcases asks with _ | ⟨⟨ap, aq⟩, arest⟩
    · simpa [matchOuterGo] using h
    simp only [matchOuterGo]
    by_cases hlt : bp < ap
    · simpa [hlt] using h
    simp only [hlt, if_false]
    have htail : sortedAsks arest := by
      simpa [sortedAsks] using (List.pairwise_cons.mp h).2
    have hkeep : sortedAsks ((ap, (matchLevel bq aq reg).2.2.1) :: arest) := by
      simpa [sortedAsks] using h
    by_cases h1 : (matchLevel bq aq reg).2.1 = [] <;>
      by_cases h2 : (matchLevel bq aq reg).2.2.1 = [] <;>
        simp only [h1, h2, if_true, if_false] <;>
        first
          | exact ih _ _ _ htail
          | exact ih _ _ _ hkeep

lemma matchOuterGo_noFak (n : Nat) :
    ∀ bids asks reg, noFakLevels bids → noFakLevels asks →
    noFakLevels (matchOuterGo n bids asks reg).2.1 ∧
    noFakLevels (matchOuterGo n bids asks reg).2.2.1 := by
  induction n with
  | zero =>
    intro bids asks reg hb ha
    simpa [matchOuterGo] using ⟨hb, ha⟩
  | succ n ih =>
    intro bids asks reg hb ha
    rcases bids with _ | ⟨⟨bp, bq⟩, brest⟩
    · simpa [matchOuterGo] using ⟨fun l hl => absurd hl (List.not_mem_nil l), ha⟩
    rcases asks with _ | ⟨⟨ap, aq⟩, arest⟩
    · simpa [matchOuterGo] using
        ⟨hb, fun l hl => absurd hl (List.not_mem_nil l)⟩
    simp only [matchOuterGo]
    by_cases hlt : bp < ap
    · simpa [hlt] using ⟨hb, ha⟩
    simp only [hlt, if_false]
    have hbq : ∀ o ∈ bq, o.orderType ≠ OrderType.FillAndKill :=
      hb (bp, bq) (List.mem_cons_self _ _)
    have haq : ∀ o ∈ aq, o.orderType ≠ OrderType.FillAndKill :=
      ha (ap, aq) (List.mem_cons_self _ _)
    have hbrest : noFakLevels brest :=
      fun l hl => hb l (List.mem_cons_of_mem _ hl)
    have harest : noFakLevels arest :=
      fun l hl => ha l (List.mem_cons_of_mem _ hl)
    have hbq' : ∀ o ∈ (matchLevel bq aq reg).2.1,
        o.orderType ≠ OrderType.FillAndKill := by
      intro o ho
      obtain ⟨x, hx, _, hty⟩ :=
        consumedFrom_fields _ _ (matchLevel_consumed_bid bq aq reg) o ho
      exact hty ▸ hbq x hx
    have haq' : ∀ o ∈ (matchLevel bq aq reg).2.2.1,
        o.orderType ≠ OrderType.FillAndKill := by
      intro o ho
      obtain ⟨x, hx, _, hty⟩ :=
        consumedFrom_fields _ _ (matchLevel_consumed_ask bq aq reg) o ho
      exact hty ▸ haq x hx
    have hbids' : noFakLevels ((bp, (matchLevel bq aq reg).2.1) :: brest) := by
      intro l hl
      rcases List.mem_cons.mp hl with rfl | hl'
      · exact hbq'
      · exact hbrest l hl'
    have hasks' : noFakLevels ((ap, (matchLevel bq aq reg).2.2.1) :: arest) := by
      intro l hl
      rcases List.mem_cons.mp hl with rfl | hl'
      · exact haq'
      · exact harest l hl'
    by_cases h1 : (matchLevel bq aq reg).2.1 = [] <;>
      by_cases h2 : (matchLevel bq aq reg).2.2.1 = [] <;>
      simp only [h1, h2, if_true, if_false]
    · exact ih _ _ _ hbrest harest
    · exact ih _ _ _ hbrest hasks'
    · exact ih _ _ _ hbids' harest
    · exact ih _ _ _ hbids' hasks'

lemma matchOuterGo_noFilled_noEmpty (n : Nat) :
    ∀ bids asks reg, noFilledLevels bids → noFilledLevels asks →
    noEmptyLevels bids → noEmptyLevels asks →
    noFilledLevels (matchOuterGo n bids asks reg).2.1 ∧
    noFilledLevels (matchOuterGo n bids asks reg).2.2.1 ∧
    noEmptyLevels (matchOuterGo n bids asks reg).2.1 ∧
    noEmptyLevels (matchOuterGo n bids asks reg).2.2.1 := by
  induction n with
  | zero =>
    intro bids asks reg h1 h2 h3 h4
    simpa [matchOuterGo] using ⟨h1, h2, h3, h4⟩
  | succ n ih =>
    intro bids asks reg hf1 hf2 he1 he2
    rcases bids with _ | ⟨⟨bp, bq⟩, brest⟩
    · refine ⟨?_, ?_, ?_, ?_⟩ <;>
        simp only [matchOuterGo] <;>
        first
          | exact fun l hl => absurd hl (List.not_mem_nil l)
          | exact hf2
          | exact he2
    rcases asks with _ | ⟨⟨ap, aq⟩, arest⟩
    · refine ⟨?_, ?_, ?_, ?_⟩ <;>
        simp only [matchOuterGo] <;>
        first
          | exact fun l hl => absurd hl (List.not_mem_nil l)
          | exact hf1
          | exact he1
    simp only [matchOuterGo]
    by_cases hlt : bp < ap
    · simpa [hlt] using ⟨hf1, hf2, he1, he2⟩
    simp only [hlt, if_false]
    have hbq : ∀ o ∈ bq, o.remainingQuantity ≠ 0 :=
      hf1 (bp, bq) (List.mem_cons_self _ _)
    have haq : ∀ o ∈ aq, o.remainingQuantity ≠ 0 :=
      hf2 (ap, aq) (List.mem_cons_self _ _)
    have hfbrest : noFilledLevels brest :=
      fun l hl => hf1 l (List.mem_cons_of_mem _ hl)
    have hfarest : noFilledLevels arest :=
      fun l hl => hf2 l (List.mem_cons_of_mem _ hl)
    have hebrest : noEmptyLevels brest :=
      fun l hl => he1 l (List.mem_cons_of_mem _ hl)
    have hearest : noEmptyLevels arest :=
      fun l hl => he2 l (List.mem_cons_of_mem _ hl)
    have hbq' : ∀ o ∈ (matchLevel bq aq reg).2.1, o.remainingQuantity ≠ 0 :=
      matchLevelGo_noFilled_bid _ bq aq reg hbq
    have haq' : ∀ o ∈ (matchLevel bq aq reg).2.2.1, o.remainingQuantity ≠ 0 :=
      matchLevelGo_noFilled_ask _ bq aq reg haq
    by_cases h1 : (matchLevel bq aq reg).2.1 = [] <;>
      by_cases h2 : (matchLevel bq aq reg).2.2.1 = [] <;>
      simp only [h1, h2, if_true, if_false]
    · exact ih _ _ _ hfbrest hfarest hebrest hearest
    · refine ih _ _ _ hfbrest ?_ hebrest ?_
      · intro l hl
        rcases List.mem_cons.mp hl with rfl | hl'
        · exact haq'
        · exact hfarest l hl'
      · intro l hl
        rcases List.mem_cons.mp hl with rfl | hl'
        · exact h2
        · exact hearest l hl'
    · refine ih _ _ _ ?_ hfarest ?_ hearest
      · intro l hl
        rcases List.mem_cons.mp hl with rfl | hl'
        · exact hbq'
        · exact hfbrest l hl'
      · intro l hl
        rcases List.mem_cons.mp hl with rfl | hl'
        · exact h1
        · exact hebrest l hl'
    · refine ih _ _ _ ?_ ?_ ?_ ?_ <;> intro l hl <;>
        rcases List.mem_cons.mp hl with rfl | hl'
      · exact hbq'
      · exact hfbrest l hl'
      · exact haq'
      · exact hfarest l hl'
      · exact h1
      · exact hebrest l hl'
      · exact h2
      · exact hearest l hl'

lemma matchOuterGo_fakInv_buy (n : Nat) :
    ∀ (asks : List Level) (f : Order) (reg : List Nat) (p : Int)
      (brest : List Level), noFakLevels asks → noFakLevels brest →
    (noFakLevels (matchOuterGo n ((p, [f]) :: brest) asks reg).2.1 ∧
     noFakLevels (matchOuterGo n ((p, [f]) :: brest) asks reg).2.2.1) ∨
    (∃ f', (matchOuterGo n ((p, [f]) :: brest) asks reg).2.1 =
        (p, [f']) :: brest ∧
      f'.orderID = f.orderID ∧ f'.orderType = f.orderType ∧
      noFakLevels (matchOuterGo n ((p, [f]) :: brest) asks reg).2.2.1) := by
  induction n with
  | zero =>
    intro asks f reg p brest ha hb
    exact Or.inr ⟨f, by simp [matchOuterGo], rfl, rfl, by
      simpa [matchOuterGo] using ha⟩
  | succ n ih =>
    intro asks f reg p brest ha hb
    rcases asks with _ | ⟨⟨ap, aq⟩, arest⟩
    · refine Or.inr ⟨f, by simp [matchOuterGo], rfl, rfl, ?_⟩
      simp only [matchOuterGo]
      exact fun l hl => absurd hl (List.not_mem_nil l)
    simp only [matchOuterGo]
    by_cases hlt : p < ap
    · exact Or.inr ⟨f, by simp [hlt], rfl, rfl, by simpa [hlt] using ha⟩
    simp only [hlt, if_false]
    have haq : ∀ o ∈ aq, o.orderType ≠ OrderType.FillAndKill :=
      ha (ap, aq) (List.mem_cons_self _ _)
    have harest : noFakLevels arest :=
      fun l hl => ha l (List.mem_cons_of_mem _ hl)
    have haq' : ∀ o ∈ (matchLevel [f] aq reg).2.2.1,
        o.orderType ≠ OrderType.FillAndKill := by
      intro o ho
      obtain ⟨x, hx, _, hty⟩ :=
        consumedFrom_fields _ _ (matchLevel_consumed_ask [f] aq reg) o ho
      exact hty ▸ haq x hx
    have hasks' : noFakLevels ((ap, (matchLevel [f] aq reg).2.2.1) :: arest) := by
      intro l hl
      rcases List.mem_cons.mp hl with rfl | hl'
      · exact haq'
      · exact harest l hl'
    rcases consumedFrom_singleton _ _ (matchLevel_consumed_bid [f] aq reg) with
      h1 | ⟨f', hf', hid, hty⟩
    · simp only [h1, if_true]
      by_cases h2 : (matchLevel [f] aq reg).2.2.1 = []
      · simp only [h2, if_true]
        exact Or.inl (matchOuterGo_noFak n _ _ _ hb harest)
      · simp only [h2, if_false]
        exact Or.inl (matchOuterGo_noFak n _ _ _ hb hasks')
    · have h1 : ¬ ((matchLevel [f] aq reg).2.1 = []) := by
        rw [hf']; simp
      have h2 : (matchLevel [f] aq reg).2.2.1 = [] := by
        rcases matchLevel_empty_side [f] aq reg with hx | hx
        · exact absurd hx h1
        · exact hx
      simp only [h1, h2, if_true, if_false, hf']
      rcases ih arest f' (matchLevel [f] aq reg).2.2.2 p brest harest hb with
        hres | ⟨f'', hf'', hid', hty', hres⟩
      · exact Or.inl hres
      · exact Or.inr ⟨f'', hf'', hid'.trans hid, hty'.trans hty, hres⟩

lemma matchOuterGo_fakInv_sell (n : Nat) :
    ∀ (bids : List Level) (f : Order) (reg : List Nat) (p : Int)
      (arest : List Level), noFakLevels bids → noFakLevels arest →
    (noFakLevels (matchOuterGo n bids ((p, [f]) :: arest) reg).2.1 ∧
     noFakLevels (matchOuterGo n bids ((p, [f]) :: arest) reg).2.2.1) ∨
    (∃ f', (matchOuterGo n bids ((p, [f]) :: arest) reg).2.2.1 =
        (p, [f']) :: arest ∧
      f'.orderID = f.orderID ∧ f'.orderType = f.orderType ∧
      noFakLevels (matchOuterGo n bids ((p, [f]) :: arest) reg).2.1) := by
  induction n with
  | zero =>
    intro bids f reg p arest hb ha
    exact Or.inr ⟨f, by simp [matchOuterGo], rfl, rfl, by
      simpa [matchOuterGo] using hb⟩
  | succ n ih =>
    intro bids f reg p arest hb ha
    rcases bids with _ | ⟨⟨bp, bq⟩, brest⟩
    · refine Or.inr ⟨f, by simp [matchOuterGo], rfl, rfl, ?_⟩
      simp only [matchOuterGo]
      exact fun l hl => absurd hl (List.not_mem_nil l)
    simp only [matchOuterGo]
    by_cases hlt : bp < p
    · exact Or.inr ⟨f, by simp [hlt], rfl, rfl, by simpa [hlt] using hb⟩
    simp only [hlt, if_false]
    have hbq : ∀ o ∈ bq, o.orderType ≠ OrderType.FillAndKill :=
      hb (bp, bq) (List.mem_cons_self _ _)
    have hbrest : noFakLevels brest :=
      fun l hl => hb l (List.mem_cons_of_mem _ hl)
    have hbq' : ∀ o ∈ (matchLevel bq [f] reg).2.1,
        o.orderType ≠ OrderType.FillAndKill := by
      intro o ho
      obtain ⟨x, hx, _, hty⟩ :=
        consumedFrom_fields _ _ (matchLevel_consumed_bid bq [f] reg) o ho
      exact hty ▸ hbq x hx
    have hbids' : noFakLevels ((bp, (matchLevel bq [f] reg).2.1) :: brest) := by
      intro l hl
      rcases List.mem_cons.mp hl with rfl | hl'
      · exact hbq'
      · exact hbrest l hl'
    rcases consumedFrom_singleton _ _ (matchLevel_consumed_ask bq [f] reg) with
      h2 | ⟨f', hf', hid, hty⟩
    · simp only [h2, if_true]
      by_cases h1 : (matchLevel bq [f] reg).2.1 = []
      · simp only [h1, if_true]
        exact Or.inl (matchOuterGo_noFak n _ _ _ hbrest ha)
      · simp only [h1, if_false]
        exact Or.inl (matchOuterGo_noFak n _ _ _ hbids' ha)
    · have h2 : ¬ ((matchLevel bq [f] reg).2.2.1 = []) := by
        rw [hf']; simp
      have h1 : (matchLevel bq [f] reg).2.1 = [] := by
        rcases matchLevel_empty_side bq [f] reg with hx | hx
        · exact hx
        · exact absurd hx h2
      simp only [h1, h2, if_true, if_false, hf']
      rcases ih brest f' (matchLevel bq [f] reg).2.2.2 p arest hbrest ha with
        hres | ⟨f'', hf'', hid', hty', hres⟩
      · exact Or.inl hres
      · exact Or.inr ⟨f'', hf'', hid'.trans hid, hty'.trans hty, hres⟩

lemma removeFromLevels_mem (id : Nat) (ls : List Level) (l' : Level)
    (hl : l' ∈ removeFromLevels id ls) (o : Order) (ho : o ∈ l'.2) :
    (∃ l ∈ ls, o ∈ l.2) ∧ o.orderID ≠ id := by
  simp only [removeFromLevels] at hl
  obtain ⟨hmap, -⟩ := List.mem_filter.mp hl
  obtain ⟨l, hls, rfl⟩ := List.mem_map.mp hmap
  obtain ⟨hol, hid⟩ := List.mem_filter.mp ho
  exact ⟨⟨l, hls, hol⟩, by simpa using hid⟩

lemma removeFromLevels_noFak (id : Nat) (ls : List Level)
    (h : noFakLevels ls) : noFakLevels (removeFromLevels id ls) := by
  intro l' hl' o ho
  obtain ⟨⟨l, hls, hol⟩, -⟩ := removeFromLevels_mem id ls l' hl' o ho
  exact h l hls o hol

lemma removeFromLevels_noFilled (id : Nat) (ls : List Level)
    (h : noFilledLevels ls) : noFilledLevels (removeFromLevels id ls) := by
  intro l' hl' o ho
  obtain ⟨⟨l, hls, hol⟩, -⟩ := removeFromLevels_mem id ls l' hl' o ho
  exact h l hls o hol

lemma removeFromLevels_noEmpty (id : Nat) (ls : List Level) :
    noEmptyLevels (removeFromLevels id ls) := by
  intro l hl
  simp only [removeFromLevels] at hl
  obtain ⟨-, hp⟩ := List.mem_filter.mp hl
  simpa [List.isEmpty_iff] using hp

lemma removeFromLevels_keeps (id : Nat) (ls : List Level) (o : Order)
    (hid : o.orderID ≠ id) (h : restingInLevels o ls) :
    restingInLevels o (removeFromLevels id ls) := by
  obtain ⟨l, hls, hol⟩ := h
  refine ⟨(l.1, l.2.filter fun x => x.orderID ≠ id), ?_, ?_⟩
  · simp only [removeFromLevels]
    refine List.mem_filter.mpr ⟨List.mem_map.mpr ⟨l, hls, rfl⟩, ?_⟩
    have : o ∈ l.2.filter fun x => x.orderID ≠ id :=
      List.mem_filter.mpr ⟨hol, by simpa using hid⟩
    simp only [decide_eq_true_eq, List.isEmpty_iff]
    intro hnil
    rw [hnil] at this
    cases this
  · exact List.mem_filter.mpr ⟨hol, by simpa using hid⟩

lemma removeFromLevels_keys (id : Nat) (ls : List Level) :
    ((removeFromLevels id ls).map Prod.fst).Sublist (ls.map Prod.fst) := by
  have h : ((removeFromLevels id ls).map Prod.fst).Sublist
      (((ls.map (fun l => (l.1, l.2.filter fun o => o.orderID ≠ id)))).map
        Prod.fst) :=
    (List.filter_sublist _).map Prod.fst
  simpa [List.map_map, Function.comp] using h

lemma removeFromLevels_sortedBids (id : Nat) (ls : List Level)
    (h : sortedBids ls) : sortedBids (removeFromLevels id ls) :=
  h.sublist (removeFromLevels_keys id ls)

lemma removeFromLevels_sortedAsks (id : Nat) (ls : List Level)
    (h : sortedAsks ls) : sortedAsks (removeFromLevels id ls) :=
  h.sublist (removeFromLevels_keys id ls)

lemma sortedBids_head_bound (p : Int) (q : List Order) (rest : List Level)
    (h : sortedBids ((p, q) :: rest)) (k : Int)
    (hk : k ∈ ((p, q) :: rest).map Prod.fst) : k ≤ p := by
  simp only [sortedBids, List.map_cons, List.pairwise_cons] at h
  rcases List.mem_cons.mp hk with rfl | hk'
  · exact le_refl _
  · exact le_of_lt (h.1 k hk')

lemma sortedAsks_head_bound (p : Int) (q : List Order) (rest : List Level)
    (h : sortedAsks ((p, q) :: rest)) (k : Int)
    (hk : k ∈ ((p, q) :: rest).map Prod.fst) : p ≤ k := by
  simp only [sortedAsks, List.map_cons, List.pairwise_cons] at h
  rcases List.mem_cons.mp hk with rfl | hk'
  · exact le_refl _
  · exact le_of_lt (h.1 k hk')

lemma notCrossed_remove (bids asks : List Level) (reg : List Nat)
    (i j : Nat) (reg' : List Nat)
    (hsb : sortedBids bids) (hsa : sortedAsks asks)
    (h : notCrossed ⟨bids, asks, reg⟩ = true) :
    notCrossed ⟨removeFromLevels i bids, removeFromLevels j asks, reg'⟩ = true := by
  rcases hrb : removeFromLevels i bids with _ | ⟨⟨bp', bq'⟩, brest'⟩
  · simp [notCrossed]
  rcases hra : removeFromLevels j asks with _ | ⟨⟨ap', aq'⟩, arest'⟩
  · simp [notCrossed]
  have hbmem : bp' ∈ bids.map Prod.fst := by
    refine (removeFromLevels_keys i bids).subset ?_
    rw [hrb]; exact List.mem_cons_self _ _
  have hamem : ap' ∈ asks.map Prod.fst := by
    refine (removeFromLevels_keys j asks).subset ?_
    rw [hra]; exact List.mem_cons_self _ _
  rcases bids with _ | ⟨⟨bp, bq⟩, brest⟩
  · cases hbmem
  rcases asks with _ | ⟨⟨ap, aq⟩, arest⟩
  · cases hamem
  have hlt : bp < ap := by simpa [notCrossed] using h
  have h1 : bp' ≤ bp := sortedBids_head_bound bp bq brest hsb bp' hbmem
  have h2 : ap ≤ ap' := sortedAsks_head_bound ap aq arest hsa ap' hamem
  simp only [notCrossed, decide_eq_true_eq]
  omega

lemma cancelOrder_noFak (b : Book) (id : Nat)
    (hb : noFakLevels b.bids) (ha : noFakLevels b.asks) :
    noFakLevels (cancelOrder b id).bids ∧ noFakLevels (cancelOrder b id).asks :=
  ⟨removeFromLevels_noFak id b.bids hb, removeFromLevels_noFak id b.asks ha⟩

lemma fakCleanup_closed (P : Book → Prop) (b : Book)
    (hP : ∀ c o, P c → o.orderType = OrderType.FillAndKill →
      ((∃ p os rest, c.bids = (p, o :: os) :: rest) ∨
       (∃ p os rest, c.asks = (p, o :: os) :: rest)) →
      P (cancelOrder c o.orderID))
    (h : P b) : P (fakCleanup b) := by
  have step : ∀ c : Book, P c →
      P (match c.asks with
         | (_, o :: _) :: _ =>
           if o.orderType = OrderType.FillAndKill then cancelOrder c o.orderID
           else c
         | _ => c) := by
    intro c hc
    rcases ha : c.asks with _ | ⟨⟨p2, q2⟩, rest2⟩
    · simpa [ha] using hc
    rcases q2 with _ | ⟨o2, os2⟩
    · simpa [ha] using hc
    simp only [ha]
    by_cases h2 : o2.orderType = OrderType.FillAndKill
    · simp only [h2, if_true]
      exact hP c o2 hc h2 (Or.inr ⟨p2, os2, rest2, ha⟩)
    · simpa [h2] using hc
  simp only [fakCleanup]
  rcases hb : b.bids with _ | ⟨⟨p1, q1⟩, rest1⟩
  · exact step b h
  rcases q1 with _ | ⟨o1, os1⟩
  · exact step b h
  by_cases h1 : o1.orderType = OrderType.FillAndKill
  · simp only [h1, if_true]
    exact step _ (hP b o1 h h1 (Or.inl ⟨p1, os1, rest1, hb⟩))
  · simp only [h1, if_false]
    exact step b h

lemma fakCleanup_noFak (b : Book)
    (hb : noFakLevels b.bids) (ha : noFakLevels b.asks) :
    noFakLevels (fakCleanup b).bids ∧ noFakLevels (fakCleanup b).asks := by
  refine fakCleanup_closed
    (fun c => noFakLevels c.bids ∧ noFakLevels c.asks) b ?_ ⟨hb, ha⟩
  intro c o hc _ _
  exact cancelOrder_noFak c o.orderID hc.1 hc.2

lemma fakCleanup_notCrossed (b : Book)
    (hsb : sortedBids b.bids) (hsa : sortedAsks b.asks)
    (h : notCrossed b = true) :
    notCrossed (fakCleanup b) = true := by
  have := fakCleanup_closed
    (fun c => (sortedBids c.bids ∧ sortedAsks c.asks) ∧ notCrossed c = true) b
    ?_ ⟨⟨hsb, hsa⟩, h⟩
  · exact this.2
  intro c o hc _ _
  refine ⟨⟨removeFromLevels_sortedBids _ _ hc.1.1,
    removeFromLevels_sortedAsks _ _ hc.1.2⟩, ?_⟩
  have := notCrossed_remove c.bids c.asks c.orders o.orderID o.orderID
    ((cancelOrder c o.orderID).orders) hc.1.1 hc.1.2 (by
      rcases c with ⟨cb, ca, co⟩
      exact hc.2)
  rcases c with ⟨cb, ca, co⟩
  exact this

lemma fakCleanup_noFilled_noEmpty (b : Book)
    (h1 : noFilledLevels b.bids) (h2 : noFilledLevels b.asks)
    (h3 : noEmptyLevels b.bids) (h4 : noEmptyLevels b.asks) :
    noFilledLevels (fakCleanup b).bids ∧ noFilledLevels (fakCleanup b).asks ∧
    noEmptyLevels (fakCleanup b).bids ∧ noEmptyLevels (fakCleanup b).asks := by
  refine fakCleanup_closed (fun c => noFilledLevels c.bids ∧
    noFilledLevels c.asks ∧ noEmptyLevels c.bids ∧ noEmptyLevels c.asks) b ?_
    ⟨h1, h2, h3, h4⟩
  intro c o hc _ _
  exact ⟨removeFromLevels_noFilled _ _ hc.1,
    removeFromLevels_noFilled _ _ hc.2.1,
    removeFromLevels_noEmpty _ _, removeFromLevels_noEmpty _ _⟩

lemma fakCleanup_head_fak (b : Book) (p : Int) (f : Order) (fs : List Order)
    (brest : List Level) (hb : b.bids = (p, f :: fs) :: brest)
    (hf : f.orderType = OrderType.FillAndKill) :
    fakCleanup b = cancelOrder b f.orderID ∨
    ∃ j, fakCleanup b = cancelOrder (cancelOrder b f.orderID) j := by
  simp only [fakCleanup, hb, hf, if_true]
  rcases ha : (cancelOrder b f.orderID).asks with _ | ⟨⟨p2, q2⟩, rest2⟩
  · left
    simp [hb, ha]
  rcases q2 with _ | ⟨o2, os2⟩
  · left
    simp [hb, ha]
  by_cases h2 : o2.orderType = OrderType.FillAndKill
  · right
    exact ⟨o2.orderID, by simp [hb, ha, h2]⟩
  · left
    simp [hb, ha, h2]

lemma insertBid_keys (o : Order) (ls : List Level) :
    ∀ k ∈ (insertBid o ls).map Prod.fst, k = o.price ∨ k ∈ ls.map Prod.fst := by
  induction ls with
  | nil =>
    intro k hk
    simp only [insertBid, List.map_cons, List.map_nil, List.mem_singleton] at hk
    exact Or.inl hk
  | cons l rest ih =>
    rcases l with ⟨p, q⟩
    intro k hk
    simp only [insertBid] at hk
    by_cases h1 : o.price = p
    · simp only [h1, if_true, List.map_cons, List.mem_cons] at hk
      rcases hk with rfl | hk'
      · exact Or.inr (by simp)
      · exact Or.inr (by simp [hk'])
    by_cases h2 : p < o.price
    · simp only [h1, h2, if_true, if_false, List.map_cons, List.mem_cons] at hk
      rcases hk with rfl | hk
      · exact Or.inl rfl
      · rcases hk with rfl | hk'
        · exact Or.inr (by simp)
        · exact Or.inr (by simp [hk'])
    · simp only [h1, h2, if_false, List.map_cons, List.mem_cons] at hk
      rcases hk with rfl | hk'
      · exact Or.inr (by simp)
      · rcases ih k hk' with hx | hx
        · exact Or.inl hx
        · exact Or.inr (by simp [hx])

lemma insertAsk_keys (o : Order) (ls : List Level) :
    ∀ k ∈ (insertAsk o ls).map Prod.fst, k = o.price ∨ k ∈ ls.map Prod.fst := by
  induction ls with
  | nil =>
    intro k hk
    simp only [insertAsk, List.map_cons, List.map_nil, List.mem_singleton] at hk
    exact Or.inl hk
  | cons l rest ih =>
    rcases l with ⟨p, q⟩
    intro k hk
    simp only [insertAsk] at hk
    by_cases h1 : o.price = p
    · simp only [h1, if_true, List.map_cons, List.mem_cons] at hk
      rcases hk with rfl | hk'
      · exact Or.inr (by simp)
      · exact Or.inr (by simp [hk'])
    by_cases h2 : o.price < p
    · simp only [h1, h2, if_true, if_false, List.map_cons, List.mem_cons] at hk
      rcases hk with rfl | hk
      · exact Or.inl rfl
      · rcases hk with rfl | hk'
        · exact Or.inr (by simp)
        · exact Or.inr (by simp [hk'])
    · simp only [h1, h2, if_false, List.map_cons, List.mem_cons] at hk
      rcases hk with rfl | hk'
      · exact Or.inr (by simp)
      · rcases ih k hk' with hx | hx
        · exact Or.inl hx
        · exact Or.inr (by simp [hx])

lemma insertBid_sorted (o : Order) (ls : List Level)
    (h : sortedBids ls) : sortedBids (insertBid o ls) := by
  induction ls with
  | nil => simp [insertBid, sortedBids]
  | cons l rest ih =>
    rcases l with ⟨p, q⟩
    simp only [sortedBids, List.map_cons, List.pairwise_cons] at h
    obtain ⟨hrel, htail⟩ := h
    simp only [insertBid]
    by_cases h1 : o.price = p
    · simp only [h1, if_true]
      simp only [sortedBids, List.map_cons, List.pairwise_cons]
      exact ⟨hrel, htail⟩
    by_cases h2 : p < o.price
    · simp only [h1, h2, if_true, if_false]
      simp only [sortedBids, List.map_cons, List.pairwise_cons]
      refine ⟨?_, hrel, htail⟩
      intro k hk
      rcases List.mem_cons.mp hk with rfl | hk'
      · exact h2
      · exact lt_trans (hrel k hk') h2
    · simp only [h1, h2, if_false]
      have hlt : o.price < p := by
        rcases lt_trichotomy o.price p with hx | hx | hx
        · exact hx
        · exact absurd hx h1
        · exact absurd hx h2
      simp only [sortedBids, List.map_cons, List.pairwise_cons]
      refine ⟨?_, ih htail⟩
      intro k hk
      rcases insertBid_keys o rest k hk with rfl | hk'
      · exact hlt
      · exact hrel k hk'

lemma insertAsk_sorted (o : Order) (ls : List Level)
    (h : sortedAsks ls) : sortedAsks (insertAsk o ls) := by
  induction ls with
  | nil => simp [insertAsk, sortedAsks]
  | cons l rest ih =>
    rcases l with ⟨p, q⟩
    simp only [sortedAsks, List.map_cons, List.pairwise_cons] at h
    obtain ⟨hrel, htail⟩ := h
    simp only [insertAsk]
    by_cases h1 : o.price = p
    · simp only [h1, if_true]
      simp only [sortedAsks, List.map_cons, List.pairwise_cons]
      exact ⟨hrel, htail⟩
    by_cases h2 : o.price < p
    · simp only [h1, h2, if_true, if_false]
      simp only [sortedAsks, List.map_cons, List.pairwise_cons]
      refine ⟨?_, hrel, htail⟩
      intro k hk
      rcases List.mem_cons.mp hk with rfl | hk'
      · exact h2
      · exact lt_trans h2 (hrel k hk')
    · simp only [h1, h2, if_false]
      have hlt : p < o.price := by
        rcases lt_trichotomy o.price p with hx | hx | hx
        · exact absurd hx h2
        · exact absurd hx h1
        · exact hx
      simp only [sortedAsks, List.map_cons, List.pairwise_cons]
      refine ⟨?_, ih htail⟩
      intro k hk
      rcases insertAsk_keys o rest k hk with rfl | hk'
      · exact hlt
      · exact hrel k hk'

lemma insertBid_front (o : Order) (ls : List Level)
    (h : ls = [] ∨ ∃ p q rest, ls = (p, q) :: rest ∧ p < o.price) :
    insertBid o ls = (o.price, [o]) :: ls := by
  rcases h with rfl | ⟨p, q, rest, rfl, hlt⟩
  · simp [insertBid]
  · simp [insertBid, ne_of_gt hlt, hlt]

lemma insertAsk_front (o : Order) (ls : List Level)
    (h : ls = [] ∨ ∃ p q rest, ls = (p, q) :: rest ∧ o.price < p) :
    insertAsk o ls = (o.price, [o]) :: ls := by
  rcases h with rfl | ⟨p, q, rest, rfl, hlt⟩
  · simp [insertAsk]
  · simp [insertAsk, ne_of_lt hlt, hlt]

lemma insertBid_mem (o : Order) (ls : List Level) :
    restingInLevels o (insertBid o ls) := by
  induction ls with
  | nil => exact ⟨(o.price, [o]), by simp [insertBid], by simp⟩
  | cons l rest ih =>
    rcases l with ⟨p, q⟩
    simp only [insertBid]
    by_cases h1 : o.price = p
    · exact ⟨(p, q ++ [o]), by simp [h1], by simp⟩
    by_cases h2 : p < o.price
    · exact ⟨(o.price, [o]), by simp [h1, h2], by simp⟩
    · obtain ⟨l', hl', ho⟩ := ih
      exact ⟨l', by simp [h1, h2, hl'], ho⟩

lemma insertAsk_mem (o : Order) (ls : List Level) :
    restingInLevels o (insertAsk o ls) := by
  induction ls with
  | nil => exact ⟨(o.price, [o]), by simp [insertAsk], by simp⟩
  | cons l rest ih =>
    rcases l with ⟨p, q⟩
    simp only [insertAsk]
    by_cases h1 : o.price = p
    · exact ⟨(p, q ++ [o]), by simp [h1], by simp⟩
    by_cases h2 : o.price < p
    · exact ⟨(o.price, [o]), by simp [h1, h2], by simp⟩
    · obtain ⟨l', hl', ho⟩ := ih
      exact ⟨l', by simp [h1, h2, hl'], ho⟩

lemma insertBid_mem_src (o : Order) (ls : List Level) :
    ∀ l' ∈ insertBid o ls, ∀ x ∈ l'.2, x = o ∨ ∃ l ∈ ls, x ∈ l.2 := by
  induction ls with
  | nil =>
    intro l' hl' x hx
    simp only [insertBid, List.mem_singleton] at hl'
    subst hl'
    simp only [List.mem_singleton] at hx
    exact Or.inl hx
  | cons l rest ih =>
    rcases l with ⟨p, q⟩
    intro l' hl' x hx
    simp only [insertBid] at hl'
    by_cases h1 : o.price = p
    · simp only [h1, if_true] at hl'
      rcases List.mem_cons.mp hl' with rfl | hl''
      · rcases List.mem_append.mp hx with hx' | hx'
        · exact Or.inr ⟨(p, q), List.mem_cons_self _ _, hx'⟩
        · exact Or.inl (by simpa using hx')
      · exact Or.inr ⟨l', List.mem_cons_of_mem _ hl'', hx⟩
    by_cases h2 : p < o.price
    · simp only [h1, h2, if_true, if_false] at hl'
      rcases List.mem_cons.mp hl' with rfl | hl''
      · exact Or.inl (by simpa using hx)
      · exact Or.inr ⟨l', hl'', hx⟩
    · simp only [h1, h2, if_false] at hl'
      rcases List.mem_cons.mp hl' with rfl | hl''
      · exact Or.inr ⟨(p, q), List.mem_cons_self _ _, hx⟩
      · rcases ih l' hl'' x hx with hx' | ⟨l, hls, hxl⟩
        · exact Or.inl hx'
        · exact Or.inr ⟨l, List.mem_cons_of_mem _ hls, hxl⟩

lemma insertAsk_mem_src (o : Order) (ls : List Level) :
    ∀ l' ∈ insertAsk o ls, ∀ x ∈ l'.2, x = o ∨ ∃ l ∈ ls, x ∈ l.2 := by
  induction ls with
  | nil =>
    intro l' hl' x hx
    simp only [insertAsk, List.mem_singleton] at hl'
    subst hl'
    simp only [List.mem_singleton] at hx
    exact Or.inl hx
  | cons l rest ih =>
    rcases l with ⟨p, q⟩
    intro l' hl' x hx
    simp only [insertAsk] at hl'
    by_cases h1 : o.price = p
    · simp only [h1, if_true] at hl'
      rcases List.mem_cons.mp hl' with rfl | hl''
      · rcases List.mem_append.mp hx with hx' | hx'
        · exact Or.inr ⟨(p, q), List.mem_cons_self _ _, hx'⟩
        · exact Or.inl (by simpa using hx')
      · exact Or.inr ⟨l', List.mem_cons_of_mem _ hl'', hx⟩
    by_cases h2 : o.price < p
    · simp only [h1, h2, if_true, if_false] at hl'
      rcases List.mem_cons.mp hl' with rfl | hl''
      · exact Or.inl (by simpa using hx)
      · exact Or.inr ⟨l', hl'', hx⟩
    · simp only [h1, h2, if_false] at hl'
      rcases List.mem_cons.mp hl' with rfl | hl''
      · exact Or.inr ⟨(p, q), List.mem_cons_self _ _, hx⟩
      · rcases ih l' hl'' x hx with hx' | ⟨l, hls, hxl⟩
        · exact Or.inl hx'
        · exact Or.inr ⟨l, List.mem_cons_of_mem _ hls, hxl⟩

lemma insertBid_noFak (o : Order) (ls : List Level)
    (ho : o.orderType ≠ OrderType.FillAndKill) (h : noFakLevels ls) :
    noFakLevels (insertBid o ls) := by
  intro l' hl' x hx
  rcases insertBid_mem_src o ls l' hl' x hx with rfl | ⟨l, hls, hxl⟩
  · exact ho
  · exact h l hls x hxl

lemma insertAsk_noFak (o : Order) (ls : List Level)
    (ho : o.orderType ≠ OrderType.FillAndKill) (h : noFakLevels ls) :
    noFakLevels (insertAsk o ls) := by
  intro l' hl' x hx
  rcases insertAsk_mem_src o ls l' hl' x hx with rfl | ⟨l, hls, hxl⟩
  · exact ho
  · exact h l hls x hxl

lemma allpairs_of_sorted (bids asks : List Level) (reg : List Nat)
    (hsb : sortedBids bids) (hsa : sortedAsks asks)
    (h : notCrossed ⟨bids, asks, reg⟩ = true) :
    ∀ pb ∈ bids.map Prod.fst, ∀ pa ∈ asks.map Prod.fst, pb < pa := by
  intro pb hpb pa hpa
  rcases bids with _ | ⟨⟨bp, bq⟩, brest⟩
  · cases hpb
  rcases asks with _ | ⟨⟨ap, aq⟩, arest⟩
  · cases hpa
  have hlt : bp < ap := by simpa [notCrossed] using h
  have h1 : pb ≤ bp := sortedBids_head_bound bp bq brest hsb pb hpb
  have h2 : ap ≤ pa := sortedAsks_head_bound ap aq arest hsa pa hpa
  omega

lemma fakCleanup_sorted (b : Book)
    (hsb : sortedBids b.bids) (hsa : sortedAsks b.asks) :
    sortedBids (fakCleanup b).bids ∧ sortedAsks (fakCleanup b).asks := by
  refine fakCleanup_closed
    (fun c => sortedBids c.bids ∧ sortedAsks c.asks) b ?_ ⟨hsb, hsa⟩
  intro c o hc _ _
  exact ⟨removeFromLevels_sortedBids _ _ hc.1,
    removeFromLevels_sortedAsks _ _ hc.2⟩

lemma fakCleanup_ask_fak (b : Book) (p : Int) (f : Order) (fs : List Order)
    (arest : List Level) (hbids : noFakLevels b.bids)
    (ha : b.asks = (p, f :: fs) :: arest)
    (hf : f.orderType = OrderType.FillAndKill) :
    fakCleanup b = cancelOrder b f.orderID := by
  simp only [fakCleanup]
  rcases hb : b.bids with _ | ⟨⟨p1, q1⟩, rest1⟩
  · simp only [ha, hf, if_true]
  rcases q1 with _ | ⟨o1, os1⟩
  · simp only [ha, hf, if_true]
  have h1 : o1.orderType ≠ OrderType.FillAndKill :=
    hbids (p1, o1 :: os1) (hb ▸ List.mem_cons_self _ _) o1 (List.mem_cons_self _ _)
  simp only [h1, if_false, ha, hf, if_true]

lemma levelQueue_nil_of_not_mem (x : Int) (ls : List Level)
    (h : x ∉ ls.map Prod.fst) : levelQueue x ls = [] := by
  induction ls with
  | nil => simp [levelQueue]
  | cons l rest ih =>
    rcases l with ⟨p, q⟩
    simp only [List.map_cons, List.mem_cons] at h
    push_neg at h
    simp only [levelQueue]
    rw [if_neg (fun hpx => h.1 hpx.symm)]
    exact ih h.2

lemma insertBid_levelQueue (o : Order) (ls : List Level) (h : sortedBids ls) :
    levelQueue o.price (insertBid o ls) = levelQueue o.price ls ++ [o] := by
  induction ls with
  | nil => simp [insertBid, levelQueue]
  | cons l rest ih =>
    rcases l with ⟨p, q⟩
    simp only [sortedBids, List.map_cons, List.pairwise_cons] at h
    obtain ⟨hrel, htail⟩ := h
    simp only [insertBid]
    by_cases h1 : o.price = p
    · simp only [h1, if_true, levelQueue]
    by_cases h2 : p < o.price
    · have hnm : o.price ∉ rest.map Prod.fst := by
        intro hk
        exact absurd (lt_trans (hrel o.price hk) h2) (lt_irrefl _)
      simp only [h1, h2, if_true, if_false, levelQueue]
      rw [if_neg (fun hpx => h1 hpx.symm), levelQueue_nil_of_not_mem o.price rest hnm]
      rfl
    · simp only [h1, h2, if_false, levelQueue]
      rw [if_neg (fun hpx => h1 hpx.symm), if_neg (fun hpx => h1 hpx.symm)]
      exact ih htail

lemma insertAsk_levelQueue (o : Order) (ls : List Level) (h : sortedAsks ls) :
    levelQueue o.price (insertAsk o ls) = levelQueue o.price ls ++ [o] := by
  induction ls with
  | nil => simp [insertAsk, levelQueue]
  | cons l rest ih =>
    rcases l with ⟨p, q⟩
    simp only [sortedAsks, List.map_cons, List.pairwise_cons] at h
    obtain ⟨hrel, htail⟩ := h
    simp only [insertAsk]
    by_cases h1 : o.price = p
    · simp only [h1, if_true, levelQueue]
    by_cases h2 : o.price < p
    · have hnm : o.price ∉ rest.map Prod.fst := by
        intro hk
        exact absurd (lt_trans h2 (hrel o.price hk)) (lt_irrefl _)
      simp only [h1, h2, if_true, if_false, levelQueue]
      rw [if_neg (fun hpx => h1 hpx.symm), levelQueue_nil_of_not_mem o.price rest hnm]
      rfl
    · simp only [h1, h2, if_false, levelQueue]
      rw [if_neg (fun hpx => h1 hpx.symm), if_neg (fun hpx => h1 hpx.symm)]
      exact ih htail

/-- C1: the spec claims every trade leg records the resting order's limit
price; in Scenario C (resting sell GTC qty 10 @ 100, incoming buy GTC qty 4
@ 101) the code instead records each leg's own order price: the single trade
carries 101 (the incoming buy's price) on the bid leg and 100 on the ask leg,
so the two legs do not both carry the resting price 100. -/
theorem claim_C1_scenarioC_bid_leg_price :
    ((addOrder
        ⟨[], [((100 : Int),
          [Order.make OrderType.GoodTillCancel 1 Side.Sell 10 100])], [1]⟩
        (Order.make OrderType.GoodTillCancel 2 Side.Buy 4 101)).1.map
      (fun t => (t.bidTrade.price, t.askTrade.price))) =
      [((101 : Int), (100 : Int))] ∧
    ((101 : Int) ≠ 100) := by
  constructor
  · decide
  · decide

/-- C4: a fill-and-kill order with a fresh identity is admitted exactly when
`CanMatch` holds, and otherwise `AddOrder` returns no trades and leaves the
book unchanged; `CanMatch` for a buy holds iff the ask side is non-empty with
best ask price at most the limit, and for a sell iff the bid side is
non-empty with best bid price at least the limit. -/
theorem claim_C4_fak_admission (b : Book) (o : Order)
    (hfk : o.orderType = OrderType.FillAndKill) (hfresh : o.orderID ∉ b.orders) :
    (addOrder b o =
      if canMatch b o.side o.price then matchOrders (insertOrder b o)
      else ([], b)) ∧
    (∀ p : Int, canMatch b Side.Buy p = true ↔
      ∃ l rest, b.asks = l :: rest ∧ l.1 ≤ p) ∧
    (∀ p : Int, canMatch b Side.Sell p = true ↔
      ∃ l rest, b.bids = l :: rest ∧ p ≤ l.1) := by
  refine ⟨?_, ?_, ?_⟩
  · by_cases hc : canMatch b o.side o.price
    · simp [addOrder, hfresh, hfk, hc]
    · simp [addOrder, hfresh, hfk, hc]
  · intro p
    rcases ha : b.asks with _ | ⟨⟨ap, aq⟩, arest⟩
    · simp [canMatch, ha]
    · simp only [canMatch, ha, decide_eq_true_eq]
      constructor
      · intro h
        exact ⟨(ap, aq), arest, rfl, h⟩
      · rintro ⟨l, rest, heq, hle⟩
        have hl : (ap, aq) = l := by injection heq
        rw [← hl] at hle
        exact hle
  · intro p
    rcases hb : b.bids with _ | ⟨⟨bp, bq⟩, brest⟩
    · simp [canMatch, hb]
    · simp only [canMatch, hb, decide_eq_true_eq]
      constructor
      · intro h
        exact ⟨(bp, bq), brest, rfl, h⟩
      · rintro ⟨l, rest, heq, hle⟩
        have hl : (bp, bq) = l := by injection heq
        rw [← hl] at hle
        exact hle

/-- Witness for C4 at a concrete book and order. -/
theorem claim_C4_witness :
    (addOrder
        ⟨[], [((100 : Int),
          [Order.make OrderType.GoodTillCancel 1 Side.Sell 10 100])], [1]⟩
        (Order.make OrderType.FillAndKill 2 Side.Buy 5 100) =
      if canMatch
          ⟨[], [((100 : Int),
            [Order.make OrderType.GoodTillCancel 1 Side.Sell 10 100])], [1]⟩
          (Order.make OrderType.FillAndKill 2 Side.Buy 5 100).side
          (Order.make OrderType.FillAndKill 2 Side.Buy 5 100).price then
        matchOrders (insertOrder
          ⟨[], [((100 : Int),
            [Order.make OrderType.GoodTillCancel 1 Side.Sell 10 100])], [1]⟩
          (Order.make OrderType.FillAndKill 2 Side.Buy 5 100))
      else ([],
        ⟨[], [((100 : Int),
          [Order.make OrderType.GoodTillCancel 1 Side.Sell 10 100])], [1]⟩)) ∧
    (canMatch
        ⟨[], [((100 : Int),
          [Order.make OrderType.GoodTillCancel 1 Side.Sell 10 100])], [1]⟩
        Side.Buy 101 = true ↔
      ∃ l rest,
        ([((100 : Int),
          [Order.make OrderType.GoodTillCancel 1 Side.Sell 10 100])] :
            List Level) = l :: rest ∧ l.1 ≤ 101) := by
  have h := claim_C4_fak_admission
    ⟨[], [((100 : Int),
      [Order.make OrderType.GoodTillCancel 1 Side.Sell 10 100])], [1]⟩
    (Order.make OrderType.FillAndKill 2 Side.Buy 5 100)
    (by decide) (by decide)
  exact ⟨h.1, h.2.1 101⟩

/-- C6: submitting an order whose identity is already in the registry is
rejected silently: no trades and the entire book state unchanged. -/
theorem claim_C6_duplicate_rejected (b : Book) (o : Order)
    (h : o.orderID ∈ b.orders) : addOrder b o = ([], b) := by
  simp [addOrder, h]

/-- Witness for C6 at a concrete book and order. -/
theorem claim_C6_witness :
    (5 : Nat) ∈ ([5] : List Nat) ∧
    addOrder
      ⟨[((90 : Int), [Order.make OrderType.GoodTillCancel 5 Side.Buy 1 90])],
        [], [5]⟩
      (Order.make OrderType.FillAndKill 5 Side.Sell 2 80) =
      ([], ⟨[((90 : Int),
        [Order.make OrderType.GoodTillCancel 5 Side.Buy 1 90])], [], [5]⟩) :=
  ⟨by decide, claim_C6_duplicate_rejected _ _ (by decide)⟩

/-- C7: the guarded fill can fail only when asked for more than the remaining
quantity, and the matching loop, which fills both heads by the minimum of
their remaining quantities, never triggers that failure: the checked loop
always succeeds and agrees with the total loop. -/
theorem claim_C7_fill_guard_unreachable :
    (∀ (o : Order) (q : Nat),
      (Order.fillChecked o q).isNone = true ↔ o.remainingQuantity < q) ∧
    (∀ bq aq reg, matchLevelChecked bq aq reg = some (matchLevel bq aq reg)) := by
  constructor
  · intro o q
    by_cases h : q > o.remainingQuantity
    · simp [Order.fillChecked, h]
    · simp [Order.fillChecked, h]
  · exact fun bq aq reg => matchLevelChecked_eq bq aq reg

/-- C9: `AddOrder` terminates: beyond an explicitly computable bound on the
number of price levels, giving the outer matching loop more fuel does not
change its result, and likewise for the inner loop; the trade list returned
is the finite list computed at that bound. -/
theorem claim_C9_termination (b : Book) (o : Order) :
    (∃ n0, ∀ n, n0 ≤ n → addOrderGo n b o = addOrder b o) ∧
    (∀ bq aq reg, ∃ m0, ∀ m, m0 ≤ m →
      matchLevelGo m bq aq reg = matchLevel bq aq reg) := by
  constructor
  · refine ⟨(insertOrder b o).bids.length + (insertOrder b o).asks.length, ?_⟩
    intro n hn
    simp only [addOrderGo, addOrder]
    by_cases h1 : o.orderID ∈ b.orders
    · simp [h1]
    by_cases h2 : o.orderType = OrderType.FillAndKill ∧
      ¬ canMatch b o.side o.price
    · simp [h1, h2]
    · simp only [h1, h2, if_false]
      simp only [matchOrders, matchOuter]
      rw [matchOuterGo_stable n
        ((insertOrder b o).bids.length + (insertOrder b o).asks.length)
        (insertOrder b o).bids (insertOrder b o).asks (insertOrder b o).orders
        hn (le_refl _)]
  · intro bq aq reg
    exact ⟨bq.length + aq.length,
      fun m hm => matchLevelGo_eq_matchLevel m bq aq reg hm⟩

/-- C5: each iteration of the inner matching loop trades exactly
`min(bidRemaining, askRemaining)` between the two head orders (the first
emitted trade carries that quantity and the heads' ids and prices); a head
that is fully filled is removed from the registry; and the matching engine
preserves the invariant that no fully filled order and no empty price level
rests in the book. -/
theorem claim_C5_match_step (b a : Order) (bs as' : List Order)
    (reg : List Nat) (bk : Book) :
    ((matchLevel (b :: bs) (a :: as') reg).1.head? = some
      ⟨⟨b.orderID, b.price, min b.remainingQuantity a.remainingQuantity⟩,
       ⟨a.orderID, a.price, min b.remainingQuantity a.remainingQuantity⟩⟩) ∧
    (reg.Nodup →
      (b.remainingQuantity ≤ a.remainingQuantity →
        b.orderID ∉ (matchLevel (b :: bs) (a :: as') reg).2.2.2) ∧
      (a.remainingQuantity ≤ b.remainingQuantity →
        a.orderID ∉ (matchLevel (b :: bs) (a :: as') reg).2.2.2)) ∧
    (noFilledLevels bk.bids → noFilledLevels bk.asks →
     noEmptyLevels bk.bids → noEmptyLevels bk.asks →
      noFilledLevels (matchOrders bk).2.bids ∧
      noFilledLevels (matchOrders bk).2.asks ∧
      noEmptyLevels (matchOrders bk).2.bids ∧
      noEmptyLevels (matchOrders bk).2.asks) := by
  refine ⟨matchLevel_cons_head_trade b a bs as' reg, ?_, ?_⟩
  · intro hnd
    exact ⟨fun hle => matchLevel_cons_reg_bid b a bs as' reg hnd hle,
      fun hle => matchLevel_cons_reg_ask b a bs as' reg hnd hle⟩
  · intro h1 h2 h3 h4
    simp only [matchOrders, matchOuter]
    have ho := matchOuterGo_noFilled_noEmpty
      (bk.bids.length + bk.asks.length) bk.bids bk.asks bk.orders h1 h2 h3 h4
    exact fakCleanup_noFilled_noEmpty _ ho.1 ho.2.1 ho.2.2.1 ho.2.2.2

/-- Witness for C5 at concrete orders and a concrete book. -/
theorem claim_C5_witness :
    ((matchLevel [Order.make OrderType.GoodTillCancel 1 Side.Buy 5 100]
        [Order.make OrderType.GoodTillCancel 2 Side.Sell 3 100] [1, 2]).1.head? =
      some ⟨⟨1, 100, 3⟩, ⟨2, 100, 3⟩⟩) ∧
    ((2 : Nat) ∉ (matchLevel [Order.make OrderType.GoodTillCancel 1 Side.Buy 5 100]
        [Order.make OrderType.GoodTillCancel 2 Side.Sell 3 100] [1, 2]).2.2.2) ∧
    (noFilledLevels (matchOrders
        ⟨[((90 : Int), [Order.make OrderType.GoodTillCancel 7 Side.Buy 2 90])],
         [((95 : Int), [Order.make OrderType.GoodTillCancel 8 Side.Sell 1 95])],
         [7, 8]⟩).2.bids ∧
     noFilledLevels (matchOrders
        ⟨[((90 : Int), [Order.make OrderType.GoodTillCancel 7 Side.Buy 2 90])],
         [((95 : Int), [Order.make OrderType.GoodTillCancel 8 Side.Sell 1 95])],
         [7, 8]⟩).2.asks ∧
     noEmptyLevels (matchOrders
        ⟨[((90 : Int), [Order.make OrderType.GoodTillCancel 7 Side.Buy 2 90])],
         [((95 : Int), [Order.make OrderType.GoodTillCancel 8 Side.Sell 1 95])],
         [7, 8]⟩).2.bids ∧
     noEmptyLevels (matchOrders
        ⟨[((90 : Int), [Order.make OrderType.GoodTillCancel 7 Side.Buy 2 90])],
         [((95 : Int), [Order.make OrderType.GoodTillCancel 8 Side.Sell 1 95])],
         [7, 8]⟩).2.asks) := by
  have h := claim_C5_match_step
    (Order.make OrderType.GoodTillCancel 1 Side.Buy 5 100)
    (Order.make OrderType.GoodTillCancel 2 Side.Sell 3 100) [] [] [1, 2]
    ⟨[((90 : Int), [Order.make OrderType.GoodTillCancel 7 Side.Buy 2 90])],
     [((95 : Int), [Order.make OrderType.GoodTillCancel 8 Side.Sell 1 95])],
     [7, 8]⟩
  exact ⟨h.1, (h.2.1 (by decide)).2 (by decide),
    h.2.2 (by unfold noFilledLevels; decide) (by unfold noFilledLevels; decide)
      (by unfold noEmptyLevels; decide) (by unfold noEmptyLevels; decide)⟩

/-- C8: `AddOrder` appends a new order at the tail of its price level's FIFO
queue (both sides), one matching iteration trades the heads of the two best
queues, and the inner loop only ever consumes queues from the front: what is
left of a queue is a suffix whose head may have been partially filled in
place, so earlier-inserted orders at a price are matched before later
ones and trades are emitted in resolution order. -/
theorem claim_C8_fifo (o b a : Order) (ls : List Level)
    (bs as' bq aq : List Order) (reg : List Nat) :
    (sortedBids ls →
      levelQueue o.price (insertBid o ls) = levelQueue o.price ls ++ [o]) ∧
    (sortedAsks ls →
      levelQueue o.price (insertAsk o ls) = levelQueue o.price ls ++ [o]) ∧
    ((matchLevel (b :: bs) (a :: as') reg).1.head?.map
      (fun t => (t.bidTrade.orderid, t.askTrade.orderid)) =
      some (b.orderID, a.orderID)) ∧
    consumedFrom (matchLevel bq aq reg).2.1 bq ∧
    consumedFrom (matchLevel bq aq reg).2.2.1 aq := by
  refine ⟨fun h => insertBid_levelQueue o ls h,
    fun h => insertAsk_levelQueue o ls h, ?_,
    matchLevel_consumed_bid bq aq reg, matchLevel_consumed_ask bq aq reg⟩
  rw [matchLevel_cons_head_trade]
  rfl

/-- Witness for C8 at a concrete order, level list and queues. -/
theorem claim_C8_witness :
    (levelQueue (100 : Int)
        (insertBid (Order.make OrderType.GoodTillCancel 9 Side.Buy 7 100)
          [((100 : Int), [Order.make OrderType.GoodTillCancel 4 Side.Buy 1 100])]) =
      [Order.make OrderType.GoodTillCancel 4 Side.Buy 1 100,
       Order.make OrderType.GoodTillCancel 9 Side.Buy 7 100]) ∧
    ((matchLevel [Order.make OrderType.GoodTillCancel 11 Side.Buy 2 105]
        [Order.make OrderType.GoodTillCancel 12 Side.Sell 2 105] [11, 12]).1.head?.map
      (fun t => (t.bidTrade.orderid, t.askTrade.orderid)) =
      some (11, 12)) := by
  have h := claim_C8_fifo
    (Order.make OrderType.GoodTillCancel 9 Side.Buy 7 100)
    (Order.make OrderType.GoodTillCancel 11 Side.Buy 2 105)
    (Order.make OrderType.GoodTillCancel 12 Side.Sell 2 105)
    [((100 : Int), [Order.make OrderType.GoodTillCancel 4 Side.Buy 1 100])]
    [] [] [] [] [11, 12]
  exact ⟨h.1 (by unfold sortedBids; decide), h.2.2.1⟩

lemma insertOrder_sorted (b : Book) (o : Order)
    (hsb : sortedBids b.bids) (hsa : sortedAsks b.asks) :
    sortedBids (insertOrder b o).bids ∧ sortedAsks (insertOrder b o).asks := by
  rcases h : o.side
  · simp only [insertOrder, h]
    exact ⟨insertBid_sorted o b.bids hsb, hsa⟩
  · simp only [insertOrder, h]
    exact ⟨hsb, insertAsk_sorted o b.asks hsa⟩

/-- C3: on a book whose sides iterate in map order and whose top of book is
not crossed, after `AddOrder` returns no bid price level is at or above any
ask price level: every remaining bid price is strictly below every remaining
ask price (vacuously when a side is empty). -/
theorem claim_C3_never_crossed (b : Book) (o : Order)
    (hsb : sortedBids b.bids) (hsa : sortedAsks b.asks)
    (hnc : notCrossed b = true) :
    ∀ pb ∈ (addOrder b o).2.bids.map Prod.fst,
      ∀ pa ∈ (addOrder b o).2.asks.map Prod.fst, pb < pa := by
  by_cases h1 : o.orderID ∈ b.orders
  · simp only [addOrder, h1, if_true]
    exact allpairs_of_sorted b.bids b.asks b.orders hsb hsa hnc
  by_cases h2 : o.orderType = OrderType.FillAndKill ∧
    ¬ canMatch b o.side o.price
  · simp only [addOrder, h1, h2, if_false, if_true]
    exact allpairs_of_sorted b.bids b.asks b.orders hsb hsa hnc
  simp only [addOrder, h1, h2, if_false]
  obtain ⟨hsb1, hsa1⟩ := insertOrder_sorted b o hsb hsa
  simp only [matchOrders, matchOuter]
  have hS1 := matchOuterGo_sorted_bids
    ((insertOrder b o).bids.length + (insertOrder b o).asks.length)
    (insertOrder b o).bids (insertOrder b o).asks (insertOrder b o).orders hsb1
  have hS2 := matchOuterGo_sorted_asks
    ((insertOrder b o).bids.length + (insertOrder b o).asks.length)
    (insertOrder b o).bids (insertOrder b o).asks (insertOrder b o).orders hsa1
  have hNC := matchOuterGo_notCrossed
    ((insertOrder b o).bids.length + (insertOrder b o).asks.length)
    (insertOrder b o).bids (insertOrder b o).asks (insertOrder b o).orders
    (le_refl _)
  obtain ⟨hs1, hs2⟩ := fakCleanup_sorted
    ⟨(matchOuterGo
        ((insertOrder b o).bids.length + (insertOrder b o).asks.length)
        (insertOrder b o).bids (insertOrder b o).asks
        (insertOrder b o).orders).2.1,
      (matchOuterGo
        ((insertOrder b o).bids.length + (insertOrder b o).asks.length)
        (insertOrder b o).bids (insertOrder b o).asks
        (insertOrder b o).orders).2.2.1,
      (matchOuterGo
        ((insertOrder b o).bids.length + (insertOrder b o).asks.length)
        (insertOrder b o).bids (insertOrder b o).asks
        (insertOrder b o).orders).2.2.2⟩ hS1 hS2
  have hnc2 := fakCleanup_notCrossed
    ⟨(matchOuterGo
        ((insertOrder b o).bids.length + (insertOrder b o).asks.length)
        (insertOrder b o).bids (insertOrder b o).asks
        (insertOrder b o).orders).2.1,
      (matchOuterGo
        ((insertOrder b o).bids.length + (insertOrder b o).asks.length)
        (insertOrder b o).bids (insertOrder b o).asks
        (insertOrder b o).orders).2.2.1,
      (matchOuterGo
        ((insertOrder b o).bids.length + (insertOrder b o).asks.length)
        (insertOrder b o).bids (insertOrder b o).asks
        (insertOrder b o).orders).2.2.2⟩ hS1 hS2 hNC
  exact allpairs_of_sorted _ _ _ hs1 hs2 hnc2

/-- Witness for C3 at a concrete book and order: after a partial fill at the
top of the book, the remaining bid price 95 is below the remaining ask price
100. -/
theorem claim_C3_witness :
    (95 : Int) ∈ ((addOrder
        ⟨[((95 : Int), [Order.make OrderType.GoodTillCancel 3 Side.Buy 2 95])],
         [((100 : Int), [Order.make OrderType.GoodTillCancel 1 Side.Sell 10 100])],
         [3, 1]⟩
        (Order.make OrderType.GoodTillCancel 2 Side.Buy 4 100)).2.bids.map
      Prod.fst) ∧
    (100 : Int) ∈ ((addOrder
        ⟨[((95 : Int), [Order.make OrderType.GoodTillCancel 3 Side.Buy 2 95])],
         [((100 : Int), [Order.make OrderType.GoodTillCancel 1 Side.Sell 10 100])],
         [3, 1]⟩
        (Order.make OrderType.GoodTillCancel 2 Side.Buy 4 100)).2.asks.map
      Prod.fst) ∧
    (95 : Int) < 100 :=
  ⟨by decide, by decide,
    claim_C3_never_crossed
      ⟨[((95 : Int), [Order.make OrderType.GoodTillCancel 3 Side.Buy 2 95])],
       [((100 : Int), [Order.make OrderType.GoodTillCancel 1 Side.Sell 10 100])],
       [3, 1]⟩
      (Order.make OrderType.GoodTillCancel 2 Side.Buy 4 100)
      (by unfold sortedBids; decide) (by unfold sortedAsks; decide) (by decide)
      95 (by decide) 100 (by decide)⟩

/-- C2: starting from a book whose top of book is not crossed and in which no
fill-and-kill order rests on either side, after any `AddOrder` call returns,
no fill-and-kill order rests anywhere in the book: an admitted fill-and-kill
order is either fully filled by the matching loop or cancelled by the
cleanup before `AddOrder` returns. -/
theorem claim_C2_no_fak_rests (b : Book) (o : Order)
    (hnc : notCrossed b = true)
    (hb : noFakLevels b.bids) (ha : noFakLevels b.asks) :
    noFakLevels (addOrder b o).2.bids ∧ noFakLevels (addOrder b o).2.asks := by
  by_cases h1 : o.orderID ∈ b.orders
  · simp only [addOrder, h1, if_true]
    exact ⟨hb, ha⟩
  by_cases h2 : o.orderType = OrderType.FillAndKill ∧
    ¬ canMatch b o.side o.price
  · simp only [addOrder, h1, h2, if_false, if_true]
    exact ⟨hb, ha⟩
  simp only [addOrder, h1, h2, if_false]
  rcases hty : o.orderType with _ | _
  · -- GoodTillCancel: the inserted order is not fill-and-kill
    have hno : o.orderType ≠ OrderType.FillAndKill := by
      rw [hty]
      intro hcon
      cases hcon
    rcases hside : o.side
    · simp only [matchOrders, matchOuter, insertOrder, hside]
      have hout := matchOuterGo_noFak
        ((insertBid o b.bids).length + b.asks.length)
        (insertBid o b.bids) b.asks (o.orderID :: b.orders)
        (insertBid_noFak o b.bids hno hb) ha
      exact fakCleanup_noFak _ hout.1 hout.2
    · simp only [matchOrders, matchOuter, insertOrder, hside]
      have hout := matchOuterGo_noFak
        (b.bids.length + (insertAsk o b.asks).length)
        b.bids (insertAsk o b.asks) (o.orderID :: b.orders)
        hb (insertAsk_noFak o b.asks hno ha)
      exact fakCleanup_noFak _ hout.1 hout.2
  · -- FillAndKill: admission implies CanMatch
    have hcm : canMatch b o.side o.price = true := by
      by_cases hx : canMatch b o.side o.price
      · exact hx
      · exact absurd ⟨hty, by simpa using hx⟩ h2
    rcases hside : o.side
    · -- Buy
      rw [hside] at hcm
      rcases hAsks : b.asks with _ | ⟨⟨A, aq⟩, arest⟩
      · simp [canMatch, hAsks] at hcm
      have hA : A ≤ o.price := by
        simpa [canMatch, hAsks] using hcm
      have hfront : insertBid o b.bids = (o.price, [o]) :: b.bids := by
        apply insertBid_front
        rcases hBids : b.bids with _ | ⟨⟨hbp, hbq⟩, hbrest⟩
        · exact Or.inl rfl
        · refine Or.inr ⟨hbp, hbq, hbrest, rfl, ?_⟩
          have hlt : hbp < A := by
            have := hnc
            rw [show b = ⟨b.bids, b.asks, b.orders⟩ from rfl] at this
            rw [hBids, hAsks] at this
            simpa [notCrossed] using this
          omega
      simp only [matchOrders, matchOuter, insertOrder, hside, hfront]
      rcases matchOuterGo_fakInv_buy
          (((o.price, [o]) :: b.bids).length + b.asks.length)
          b.asks o (o.orderID :: b.orders) o.price b.bids ha hb with
        ⟨hL1, hL2⟩ | ⟨f', hshape, hid, hty', hasks'⟩
      · exact fakCleanup_noFak _ hL1 hL2
      · have hf'fak : f'.orderType = OrderType.FillAndKill := by
          rw [hty', hty]
        have hcc : noFakLevels (cancelOrder
            ⟨(matchOuterGo (((o.price, [o]) :: b.bids).length + b.asks.length)
                ((o.price, [o]) :: b.bids) b.asks (o.orderID :: b.orders)).2.1,
              (matchOuterGo (((o.price, [o]) :: b.bids).length + b.asks.length)
                ((o.price, [o]) :: b.bids) b.asks (o.orderID :: b.orders)).2.2.1,
              (matchOuterGo (((o.price, [o]) :: b.bids).length + b.asks.length)
                ((o.price, [o]) :: b.bids) b.asks
                (o.orderID :: b.orders)).2.2.2⟩ f'.orderID).bids ∧
            noFakLevels (cancelOrder
            ⟨(matchOuterGo (((o.price, [o]) :: b.bids).length + b.asks.length)
                ((o.price, [o]) :: b.bids) b.asks (o.orderID :: b.orders)).2.1,
              (matchOuterGo (((o.price, [o]) :: b.bids).length + b.asks.length)
                ((o.price, [o]) :: b.bids) b.asks (o.orderID :: b.orders)).2.2.1,
              (matchOuterGo (((o.price, [o]) :: b.bids).length + b.asks.length)
                ((o.price, [o]) :: b.bids) b.asks
                (o.orderID :: b.orders)).2.2.2⟩ f'.orderID).asks := by
          constructor
          · intro l' hl' x hx
            obtain ⟨⟨l, hls, hxl⟩, hxid⟩ :=
              removeFromLevels_mem f'.orderID _ l' hl' x hx
            rw [hshape] at hls
            rcases List.mem_cons.mp hls with rfl | hl2
            · simp only [List.mem_singleton] at hxl
              subst hxl
              exact absurd rfl hxid
            · exact hb l hl2 x hxl
          · exact removeFromLevels_noFak _ _ hasks'
        rcases fakCleanup_head_fak
            ⟨(matchOuterGo (((o.price, [o]) :: b.bids).length + b.asks.length)
                ((o.price, [o]) :: b.bids) b.asks (o.orderID :: b.orders)).2.1,
              (matchOuterGo (((o.price, [o]) :: b.bids).length + b.asks.length)
                ((o.price, [o]) :: b.bids) b.asks (o.orderID :: b.orders)).2.2.1,
              (matchOuterGo (((o.price, [o]) :: b.bids).length + b.asks.length)
                ((o.price, [o]) :: b.bids) b.asks
                (o.orderID :: b.orders)).2.2.2⟩
            o.price f' [] b.bids hshape hf'fak with
          hcl | ⟨j, hcl⟩
        · rw [hcl]
          exact hcc
        · rw [hcl]
          exact cancelOrder_noFak _ j hcc.1 hcc.2
    · -- Sell
      rw [hside] at hcm
      rcases hBids : b.bids with _ | ⟨⟨B, bq⟩, brest⟩
      · simp [canMatch, hBids] at hcm
      have hB : o.price ≤ B := by
        simpa [canMatch, hBids] using hcm
      have hfront : insertAsk o b.asks = (o.price, [o]) :: b.asks := by
        apply insertAsk_front
        rcases hAsks : b.asks with _ | ⟨⟨hap, haq⟩, harest⟩
        · exact Or.inl rfl
        · refine Or.inr ⟨hap, haq, harest, rfl, ?_⟩
          have hlt : B < hap := by
            have := hnc
            rw [show b = ⟨b.bids, b.asks, b.orders⟩ from rfl] at this
            rw [hBids, hAsks] at this
            simpa [notCrossed] using this
          omega
      simp only [matchOrders, matchOuter, insertOrder, hside, hfront]
      rcases matchOuterGo_fakInv_sell
          (b.bids.length + ((o.price, [o]) :: b.asks).length)
          b.bids o (o.orderID :: b.orders) o.price b.asks hb ha with
        ⟨hL1, hL2⟩ | ⟨f', hshape, hid, hty', hbids'⟩
      · exact fakCleanup_noFak _ hL1 hL2
      · have hf'fak : f'.orderType = OrderType.FillAndKill := by
          rw [hty', hty]
        have hcl := fakCleanup_ask_fak
          ⟨(matchOuterGo (b.bids.length + ((o.price, [o]) :: b.asks).length)
              b.bids ((o.price, [o]) :: b.asks) (o.orderID :: b.orders)).2.1,
            (matchOuterGo (b.bids.length + ((o.price, [o]) :: b.asks).length)
              b.bids ((o.price, [o]) :: b.asks) (o.orderID :: b.orders)).2.2.1,
            (matchOuterGo (b.bids.length + ((o.price, [o]) :: b.asks).length)
              b.bids ((o.price, [o]) :: b.asks)
              (o.orderID :: b.orders)).2.2.2⟩ o.price f' [] b.asks hbids'
          hshape hf'fak
        rw [hcl]
        constructor
        · exact removeFromLevels_noFak _ _ hbids'
        · intro l' hl' x hx
          obtain ⟨⟨l, hls, hxl⟩, hxid⟩ :=
            removeFromLevels_mem f'.orderID _ l' hl' x hx
          rw [hshape] at hls
          rcases List.mem_cons.mp hls with rfl | hl2
          · simp only [List.mem_singleton] at hxl
            subst hxl
            exact absurd rfl hxid
          · exact ha l hl2 x hxl

/-- Witness for C2 at a concrete book and order (Scenario E). -/
theorem claim_C2_witness :
    noFakLevels (addOrder
      ⟨[], [((99 : Int),
        [Order.make OrderType.GoodTillCancel 1 Side.Sell 3 99])], [1]⟩
      (Order.make OrderType.FillAndKill 2 Side.Buy 10 100)).2.bids ∧
    noFakLevels (addOrder
      ⟨[], [((99 : Int),
        [Order.make OrderType.GoodTillCancel 1 Side.Sell 3 99])], [1]⟩
      (Order.make OrderType.FillAndKill 2 Side.Buy 10 100)).2.asks :=
  claim_C2_no_fak_rests
    ⟨[], [((99 : Int),
      [Order.make OrderType.GoodTillCancel 1 Side.Sell 3 99])], [1]⟩
    (Order.make OrderType.FillAndKill 2 Side.Buy 10 100)
    (by decide) (by unfold noFakLevels; decide) (by unfold noFakLevels; decide)

lemma insertBid_head_key (o : Order) (ls : List Level) (k : Int)
    (kq : List Order) (krest : List Level)
    (h : insertBid o ls = (k, kq) :: krest) :
    k = o.price ∨ ∃ q0 r0, ls = (k, q0) :: r0 := by
  cases ls with
  | nil =>
    simp only [insertBid] at h
    left
    have : (o.price, ([o] : List Order)) = (k, kq) := by injection h
    injection this with h1 h2
    exact h1.symm
  | cons l rest =>
    rcases l with ⟨p, q⟩
    simp only [insertBid] at h
    by_cases h1 : o.price = p
    · simp only [h1, if_true] at h
      have : (p, q ++ [o]) = (k, kq) := by injection h
      have hk : p = k := by injection this
      right
      exact ⟨q, rest, by rw [hk]⟩
    by_cases h2 : p < o.price
    · simp only [h1, h2, if_true, if_false] at h
      have : (o.price, ([o] : List Order)) = (k, kq) := by injection h
      left
      have hk : o.price = k := by injection this
      exact hk.symm
    · simp only [h1, h2, if_false] at h
      have : (p, q) = (k, kq) := by injection h
      have hk : p = k := by injection this
      right
      exact ⟨q, rest, by rw [hk]⟩

lemma insertAsk_head_key (o : Order) (ls : List Level) (k : Int)
    (kq : List Order) (krest : List Level)
    (h : insertAsk o ls = (k, kq) :: krest) :
    k = o.price ∨ ∃ q0 r0, ls = (k, q0) :: r0 := by
  cases ls with
  | nil =>
    simp only [insertAsk] at h
    left
    have : (o.price, ([o] : List Order)) = (k, kq) := by injection h
    injection this with h1 h2
    exact h1.symm
  | cons l rest =>
    rcases l with ⟨p, q⟩
    simp only [insertAsk] at h
    by_cases h1 : o.price = p
    · simp only [h1, if_true] at h
      have : (p, q ++ [o]) = (k, kq) := by injection h
      have hk : p = k := by injection this
      right
      exact ⟨q, rest, by rw [hk]⟩
    by_cases h2 : o.price < p
    · simp only [h1, h2, if_true, if_false] at h
      have : (o.price, ([o] : List Order)) = (k, kq) := by injection h
      left
      have hk : o.price = k := by injection this
      exact hk.symm
    · simp only [h1, h2, if_false] at h
      have : (p, q) = (k, kq) := by injection h
      have hk : p = k := by injection this
      right
      exact ⟨q, rest, by rw [hk]⟩

lemma insert_notCrossed_buy (b : Book) (o : Order) (reg' : List Nat)
    (hnc : notCrossed b = true) (hcm : canMatch b Side.Buy o.price = false) :
    notCrossed ⟨insertBid o b.bids, b.asks, reg'⟩ = true := by
  rcases hIns : insertBid o b.bids with _ | ⟨⟨k, kq⟩, krest⟩
  · simp [notCrossed]
  rcases hAsks : b.asks with _ | ⟨⟨A, aq⟩, arest⟩
  · simp [notCrossed]
  have hpA : o.price < A := by
    have : ¬ (A ≤ o.price) := by simpa [canMatch, hAsks] using hcm
    omega
  have hk : k < A := by
    rcases insertBid_head_key o b.bids k kq krest hIns with rfl | ⟨q0, r0, hb0⟩
    · exact hpA
    · have hx := hnc
      rw [show b = ⟨b.bids, b.asks, b.orders⟩ from rfl] at hx
      rw [hb0, hAsks] at hx
      simpa [notCrossed] using hx
  simp only [notCrossed]
  simpa using hk

lemma insert_notCrossed_sell (b : Book) (o : Order) (reg' : List Nat)
    (hnc : notCrossed b = true) (hcm : canMatch b Side.Sell o.price = false) :
    notCrossed ⟨b.bids, insertAsk o b.asks, reg'⟩ = true := by
  rcases hBids : b.bids with _ | ⟨⟨B, bq⟩, brest⟩
  · simp [notCrossed]
  rcases hIns : insertAsk o b.asks with _ | ⟨⟨k, kq⟩, krest⟩
  · simp [notCrossed]
  have hBp : B < o.price := by
    have : ¬ (o.price ≤ B) := by simpa [canMatch, hBids] using hcm
    omega
  have hk : B < k := by
    rcases insertAsk_head_key o b.asks k kq krest hIns with rfl | ⟨q0, r0, ha0⟩
    · exact hBp
    · have hx := hnc
      rw [show b = ⟨b.bids, b.asks, b.orders⟩ from rfl] at hx
      rw [hBids, ha0] at hx
      simpa [notCrossed] using hx
  simp only [notCrossed]
  simpa using hk

/-- C10: `AddOrder` never validates that the quantity is positive: a
good-till-cancel order carrying initial and remaining quantity 0 whose limit
price cannot match the opposite side is inserted and rests in the book with
remaining quantity 0 (its `isFilled` already true), and no trade is
produced. -/
theorem claim_C10_zero_quantity_rests (b : Book) (o : Order)
    (hty : o.orderType = OrderType.GoodTillCancel)
    (hq0 : o.initialQuantity = 0) (hr0 : o.remainingQuantity = 0)
    (hnc : notCrossed b = true)
    (hcm : canMatch b o.side o.price = false)
    (hreg : o.orderID ∉ b.orders)
    (hfb : idFreeLevels o.orderID b.bids)
    (hfa : idFreeLevels o.orderID b.asks) :
    ((o.side = Side.Buy → restingInLevels o (addOrder b o).2.bids) ∧
     (o.side = Side.Sell → restingInLevels o (addOrder b o).2.asks)) ∧
    (addOrder b o).1 = [] ∧ o.isFilled = true := by
  have hnofak : ¬ (o.orderType = OrderType.FillAndKill ∧
      ¬ canMatch b o.side o.price) := by
    rintro ⟨hcon, -⟩
    rw [hty] at hcon
    cases hcon
  have hfill : o.isFilled = true := by
    simp [Order.isFilled, hr0]
  simp only [addOrder, if_neg hreg, if_neg hnofak]
  rcases hside : o.side
  · -- Buy
    simp only [insertOrder, hside]
    rw [hside] at hcm
    have hnc1 : notCrossed
        ⟨insertBid o b.bids, b.asks, o.orderID :: b.orders⟩ = true :=
      insert_notCrossed_buy b o _ hnc hcm
    simp only [matchOrders, matchOuter]
    rw [matchOuterGo_stop _ _ _ _ hnc1]
    have hcl := fakCleanup_closed
      (fun c => restingInLevels o c.bids ∧
        (∀ l ∈ c.bids, ∀ x ∈ l.2, x = o ∨ x.orderID ≠ o.orderID) ∧
        (∀ l ∈ c.asks, ∀ x ∈ l.2, x = o ∨ x.orderID ≠ o.orderID))
      ⟨insertBid o b.bids, b.asks, o.orderID :: b.orders⟩ ?_ ?_
    · exact ⟨⟨fun _ => hcl.1, fun hcon => absurd hcon (by decide)⟩,
        rfl, hfill⟩
    · intro c x0 hc hfak hhead
      have hxid : x0.orderID ≠ o.orderID := by
        have hx0mem : x0 = o ∨ x0.orderID ≠ o.orderID := by
          rcases hhead with ⟨p1, os, rest, hcb⟩ | ⟨p1, os, rest, hca⟩
          · exact hc.2.1 (p1, x0 :: os) (by rw [hcb]; exact List.mem_cons_self _ _)
              x0 (List.mem_cons_self _ _)
          · exact hc.2.2 (p1, x0 :: os) (by rw [hca]; exact List.mem_cons_self _ _)
              x0 (List.mem_cons_self _ _)
        rcases hx0mem with rfl | hne
        · rw [hty] at hfak
          cases hfak
        · exact hne
      refine ⟨removeFromLevels_keeps x0.orderID c.bids o hxid.symm hc.1, ?_, ?_⟩
      · intro l' hl' x hx
        obtain ⟨⟨l, hls, hxl⟩, -⟩ :=
          removeFromLevels_mem x0.orderID c.bids l' hl' x hx
        exact hc.2.1 l hls x hxl
      · intro l' hl' x hx
        obtain ⟨⟨l, hls, hxl⟩, -⟩ :=
          removeFromLevels_mem x0.orderID c.asks l' hl' x hx
        exact hc.2.2 l hls x hxl
    · refine ⟨insertBid_mem o b.bids, ?_, ?_⟩
      · intro l hl x hx
        rcases insertBid_mem_src o b.bids l hl x hx with rfl | ⟨l0, hl0, hx0⟩
        · exact Or.inl rfl
        · exact Or.inr (hfb l0 hl0 x hx0)
      · intro l hl x hx
        exact Or.inr (hfa l hl x hx)
  · -- Sell
    simp only [insertOrder, hside]
    rw [hside] at hcm
    have hnc1 : notCrossed
        ⟨b.bids, insertAsk o b.asks, o.orderID :: b.orders⟩ = true :=
      insert_notCrossed_sell b o _ hnc hcm
    simp only [matchOrders, matchOuter]
    rw [matchOuterGo_stop _ _ _ _ hnc1]
    have hcl := fakCleanup_closed
      (fun c => restingInLevels o c.asks ∧
        (∀ l ∈ c.bids, ∀ x ∈ l.2, x = o ∨ x.orderID ≠ o.orderID) ∧
        (∀ l ∈ c.asks, ∀ x ∈ l.2, x = o ∨ x.orderID ≠ o.orderID))
      ⟨b.bids, insertAsk o b.asks, o.orderID :: b.orders⟩ ?_ ?_
    · exact ⟨⟨fun hcon => absurd hcon (by decide), fun _ => hcl.1⟩,
        rfl, hfill⟩
    · intro c x0 hc hfak hhead
      have hxid : x0.orderID ≠ o.orderID := by
        have hx0mem : x0 = o ∨ x0.orderID ≠ o.orderID := by
          rcases hhead with ⟨p1, os, rest, hcb⟩ | ⟨p1, os, rest, hca⟩
          · exact hc.2.1 (p1, x0 :: os) (by rw [hcb]; exact List.mem_cons_self _ _)
              x0 (List.mem_cons_self _ _)
          · exact hc.2.2 (p1, x0 :: os) (by rw [hca]; exact List.mem_cons_self _ _)
              x0 (List.mem_cons_self _ _)
        rcases hx0mem with rfl | hne
        · rw [hty] at hfak
          cases hfak
        · exact hne
      refine ⟨removeFromLevels_keeps x0.orderID c.asks o hxid.symm hc.1, ?_, ?_⟩
      · intro l' hl' x hx
        obtain ⟨⟨l, hls, hxl⟩, -⟩ :=
          removeFromLevels_mem x0.orderID c.bids l' hl' x hx
        exact hc.2.1 l hls x hxl
      · intro l' hl' x hx
        obtain ⟨⟨l, hls, hxl⟩, -⟩ :=
          removeFromLevels_mem x0.orderID c.asks l' hl' x hx
        exact hc.2.2 l hls x hxl
    · refine ⟨insertAsk_mem o b.asks, ?_, ?_⟩
      · intro l hl x hx
        exact Or.inr (hfb l hl x hx)
      · intro l hl x hx
        rcases insertAsk_mem_src o b.asks l hl x hx with rfl | ⟨l0, hl0, hx0⟩
        · exact Or.inl rfl
        · exact Or.inr (hfa l0 hl0 x hx0)

/-- Witness for C10: a zero-quantity good-till-cancel buy on the empty book
rests with remaining quantity 0. -/
theorem claim_C10_witness :
    ((Order.make OrderType.GoodTillCancel 1 Side.Buy 0 100).side = Side.Buy →
      restingInLevels (Order.make OrderType.GoodTillCancel 1 Side.Buy 0 100)
        (addOrder ⟨[], [], []⟩
          (Order.make OrderType.GoodTillCancel 1 Side.Buy 0 100)).2.bids) ∧
    (addOrder ⟨[], [], []⟩
      (Order.make OrderType.GoodTillCancel 1 Side.Buy 0 100)).1 = [] ∧
    (Order.make OrderType.GoodTillCancel 1 Side.Buy 0 100).isFilled = true := by
  have h := claim_C10_zero_quantity_rests ⟨[], [], []⟩
    (Order.make OrderType.GoodTillCancel 1 Side.Buy 0 100)
    (by decide) (by decide) (by decide) (by decide) (by decide) (by decide)
    (by unfold idFreeLevels; decide) (by unfold idFreeLevels; decide)
  exact ⟨h.1.1, h.2.1, h.2.2⟩
